import Mathlib

/-!
Verification of the benchmark analysis engine in
`src/cli/scripts/analyze_benchmarks.py`.

The Python data model is embedded shallowly: JSON values become the
inductive `Bench.Json` (numbers as rationals), Python dictionaries become
association lists preserving insertion order, and every fallible Python
operation (subscripting, attribute access, iteration) returns
`Except Bench.PyErr`.  The external numeric routines from numpy/scipy that
the script calls (`np.sqrt`, `stats.t.interval` critical values, and
`stats.ttest_ind`) are not part of the repository; they are abstracted as a
`NumKernel` parameter, so every theorem below holds for an arbitrary kernel
unless it explicitly assumes a property the spec states about them.
-/

namespace Bench

/-- JSON values as parsed by the Python `json` module.  Numbers are modelled
as rationals; objects are association lists in insertion order with the
keys assumed distinct (as produced by `json.loads`). -/
inductive Json where
  | null : Json
  | bool : Bool → Json
  | num : ℚ → Json
  | str : String → Json
  | arr : List Json → Json
  | obj : List (String × Json) → Json

/-- Python exceptions that the script can raise while ingesting records. -/
inductive PyErr where
  | keyError : String → PyErr
  | typeError : PyErr
  | attrError : PyErr
  | indexError : PyErr
  | jsonDecodeError : PyErr

deriving DecidableEq

deriving instance DecidableEq for Except

/-- Lookup in an association list (first binding wins), mirroring Python
dictionary subscripting on dictionaries with distinct keys. -/
def alook {κ α : Type} [DecidableEq κ] : List (κ × α) → κ → Option α
  | [], _ => none
  | (k, v) :: rest, key => if k = key then some v else alook rest key

/-- Dictionary store `d[key] = v`: replace the binding in place if the key is
present, otherwise append it, mirroring Python insertion-order semantics. -/
def aset {κ α : Type} [DecidableEq κ] : List (κ × α) → κ → α → List (κ × α)
  | [], key, v => [(key, v)]
  | (k, w) :: rest, key, v =>
    if k = key then (key, v) :: rest else (k, w) :: aset rest key v

/-- Membership test `key in d` on a Python dictionary. -/
def hasKeyO (fs : List (String × Json)) (k : String) : Bool :=
  (alook fs k).isSome

/-- Python `d.get(key, default)`. -/
def getD (fs : List (String × Json)) (k : String) (d : Json) : Json :=
  (alook fs k).getD d

/-- Python truthiness of a JSON value. -/
def jTruthy : Json → Bool
  | .null => false
  | .bool b => b
  | .num q => decide (q ≠ 0)
  | .str s => decide (s ≠ "")
  | .arr xs => !xs.isEmpty
  | .obj fs => !fs.isEmpty

/-- Whether the first list is an initial segment of the second. -/
def leadsWith : List Char → List Char → Bool
  | [], _ => true
  | _ :: _, [] => false
  | a :: as, b :: bs => a == b && leadsWith as bs

/-- Whether the first list occurs as a contiguous run of the second,
mirroring the Python substring test `needle in haystack`. -/
def hasSub (n : List Char) : List Char → Bool
  | [] => n.isEmpty
  | c :: cs => leadsWith n (c :: cs) || hasSub n cs

/-- Python `str.lower()` as a per-character map.  `Char.toLower` agrees
with Python on ASCII, the alphabet of every benchmark host string. -/
def lowerChars (s : String) : List Char :=
  s.data.map Char.toLower

/-- The substring of `d` before the first "." when one is present, else `d`
itself: `domain.split(".")[0] if "." in domain else domain`. -/
def shortDomain (d : String) : String :=
  if d.data.contains '.' then (d.data.takeWhile (fun c => c ≠ '.')).asString
  else d

/-- Embedding of `parse_prover_type` (analyze_benchmarks.py lines 108-129).
The result carries the base label, the peer-domain attribute and the
network-optimization attribute; the latter two are kept as raw JSON values
exactly as the Python function stores them.  Shapes on which the Python
code raises (subscripting or `.get` on a non-dict, `.lower()` on a
non-string, first key of an empty dict) return the corresponding error. -/
def parse_prover_type : Json → Except PyErr (String × Option Json × Option Json)
  | .obj fs =>
    if hasKeyO fs "Direct" then .ok ("Direct", none, none)
    else if hasKeyO fs "Proxy" then
      match alook fs "Proxy" with
      | some (.obj wf) =>
        match (alook wf "proxy").getD (.obj wf) with
        | .obj cf =>
          match getD cf "host" (.str "") with
          | .str h =>
            if hasSub "tee".data (lowerChars h) then
              .ok ("Proxy-TEE", some (.str h), none)
            else
              .ok ("Proxy", some (.str h), none)
          | _ => .error .attrError
        | _ => .error .attrError
      | some _ => .error .attrError
      | none => .error (.keyError "Proxy")
    else if hasKeyO fs "TlsSingleShot" then
      match alook fs "TlsSingleShot" with
      | some (.obj tf) =>
        match alook tf "notary" with
        | some (.obj nf) =>
          .ok ("TlsSingleShot", alook nf "domain", alook nf "network_optimization")
        | some _ => .error .attrError
        | none => .error (.keyError "notary")
      | some _ => .error .typeError
      | none => .error (.keyError "TlsSingleShot")
    else if hasKeyO fs "TlsPerMessage" then
      match alook fs "TlsPerMessage" with
      | some (.obj tf) =>
        match alook tf "notary" with
        | some (.obj nf) =>
          .ok ("TlsPerMessage", alook nf "domain", alook nf "network_optimization")
        | some _ => .error .attrError
        | none => .error (.keyError "notary")
      | some _ => .error .typeError
      | none => .error (.keyError "TlsPerMessage")
    else
      match fs with
      | [] => .error .indexError
      | (k, _) :: _ => .ok (k, none, none)
  | _ => .error .typeError

/-- First half of the key construction in `load_and_aggregate` (lines
144-148): append " (shortDomain)" when the peer-domain attribute is truthy.
A truthy non-string domain would make the Python `.split` call raise. -/
def keyWithDomain (pt : String) (nd : Option Json) : Except PyErr String :=
  match nd with
  | some d =>
    if jTruthy d then
      match d with
      | .str s => .ok (pt ++ " (" ++ shortDomain s ++ ")")
      | _ => .error .attrError
    else .ok pt
  | none => .ok pt

/-- Second half of the key construction (lines 149-151): append " [opt]"
when the network-optimization attribute is truthy.  A truthy non-string
optimization would be stringified by the Python f-string, a shape no
benchmark record produces, modelled as a type error. -/
def keyWithOpt (k1 : String) (nopt : Option Json) : Except PyErr String :=
  match nopt with
  | some o =>
    if jTruthy o then
      match o with
      | .str s => .ok (k1 ++ " [" ++ s ++ "]")
      | _ => .error .typeError
    else .ok k1
  | none => .ok k1

/-- Group-key construction from `load_and_aggregate` (lines 144-151): start
from the base label, then apply the two suffix steps. -/
def makeKey (pt : String) (nd nopt : Option Json) : Except PyErr String :=
  match keyWithDomain pt nd with
  | .error e => .error e
  | .ok k1 => keyWithOpt k1 nopt

/-- Resolver plus key construction for a single prover descriptor: the key,
the base label and the stored peer-domain attribute. -/
def proverKeyInfo (p : Json) : Except PyErr (String × String × Option Json) :=
  match parse_prover_type p with
  | .error e => .error e
  | .ok (pt, nd, nopt) =>
    match makeKey pt nd nopt with
    | .error e => .error e
    | .ok key => .ok (key, pt, nd)

/-- The group key assigned to a prover descriptor. -/
def proverKey (p : Json) : Except PyErr String :=
  (proverKeyInfo p).map (·.1)

/-- Key resolution for a whole record: `record["prover"]` then the resolver. -/
def recordKeyInfo (record : Json) : Except PyErr (String × String × Option Json) :=
  match record with
  | .obj rf =>
    match alook rf "prover" with
    | some p => proverKeyInfo p
    | none => .error (.keyError "prover")
  | _ => .error .typeError

/-- Statistics for a single round across runs (`RoundStats` in the source). -/
structure RoundStats where
  round_num : ℚ
  durations_ms : List ℚ
  request_bytes : List ℚ
  response_bytes : List ℚ

deriving DecidableEq

/-- Aggregated statistics for a prover type (`ProverStats` in the source). -/
structure ProverStats where
  prover_type : String
  notary_domain : Option Json
  total_durations_ms : List ℚ
  setup_times_ms : List ℚ
  rounds_stats : List (ℚ × RoundStats)
  all_round_durations_ms : List ℚ
  success_count : ℕ
  failure_count : ℕ

/-- A freshly created accumulator, as built on first sight of a key. -/
def newPS (pt : String) (nd : Option Json) : ProverStats :=
  ⟨pt, nd, [], [], [], [], 0, 0⟩

/-- Subscripting a JSON object field expected to hold a number. -/
def getNum (fs : List (String × Json)) (k : String) : Except PyErr ℚ :=
  match alook fs k with
  | none => .error (.keyError k)
  | some (.num q) => .ok q
  | some _ => .error .typeError

/-- Folding one round entry into the accumulator (lines 169-179): create the
round accumulator on first use, append duration and byte sizes, and append
the duration to the flattened all-round series. -/
def updateRound (ps : ProverStats) (rd : Json) : Except PyErr ProverStats :=
  match rd with
  | .obj rdf =>
    match getNum rdf "round" with
    | .error e => .error e
    | .ok rn =>
      let rs := (alook ps.rounds_stats rn).getD ⟨rn, [], [], []⟩
      match getNum rdf "duration_ms" with
      | .error e => .error e
      | .ok d =>
        match getNum rdf "request_bytes" with
        | .error e => .error e
        | .ok rq =>
          match getNum rdf "response_bytes" with
          | .error e => .error e
          | .ok rb =>
            .ok { ps with
              rounds_stats := aset ps.rounds_stats rn
                { rs with
                  durations_ms := rs.durations_ms ++ [d],
                  request_bytes := rs.request_bytes ++ [rq],
                  response_bytes := rs.response_bytes ++ [rb] },
              all_round_durations_ms := ps.all_round_durations_ms ++ [d] }
  | _ => .error .typeError

/-- Folding all round entries of one record, left to right. -/
def processRounds (ps : ProverStats) : List Json → Except PyErr ProverStats
  | [] => .ok ps
  | rd :: rds =>
    match updateRound ps rd with
    | .error e => .error e
    | .ok ps1 => processRounds ps1 rds

/-- Folding one record into its accumulator (lines 161-181): increment the
success or failure counter; on success require `results`, append the total
duration, append `setup_time_ms` only when truthy, and fold the rounds.
Non-numeric durations or byte sizes, which would make every downstream
numpy reduction fail, and a non-list `rounds` value are modelled as
immediate type errors; no benchmark record and no claim exercises them. -/
def updatePS (record : Json) (ps : ProverStats) : Except PyErr ProverStats :=
  match record with
  | .obj rf =>
    if jTruthy (getD rf "success" (.bool false)) then
      match alook rf "results" with
      | none => .error (.keyError "results")
      | some (.obj resf) =>
        match getNum resf "total_duration_ms" with
        | .error e => .error e
        | .ok dur =>
          let ps1 := { ps with
            success_count := ps.success_count + 1,
            total_durations_ms := ps.total_durations_ms ++ [dur] }
          let sval := getD resf "setup_time_ms" .null
          match
            (if jTruthy sval then
               match sval with
               | .num q =>
                 Except.ok { ps1 with setup_times_ms := ps1.setup_times_ms ++ [q] }
               | _ => Except.error PyErr.typeError
             else Except.ok ps1) with
          | .error e => .error e
          | .ok ps2 =>
            match alook resf "rounds" with
            | none => processRounds ps2 []
            | some (.arr rds) => processRounds ps2 rds
            | some _ => .error .typeError
      | some _ => .error .typeError
    else .ok { ps with failure_count := ps.failure_count + 1 }
  | _ => .error .typeError

/-- The aggregation state: insertion-ordered mapping from group key to its
accumulator (the dictionary `provers`). -/
abbrev AggState := List (String × ProverStats)

/-- Ingesting one record (lines 141-181): resolve the key, create the
accumulator on first sight, and fold the record into it. -/
def ingestRecord (st : AggState) (record : Json) : Except PyErr AggState :=
  match recordKeyInfo record with
  | .error e => .error e
  | .ok (key, pt, nd) =>
    match updatePS record ((alook st key).getD (newPS pt nd)) with
    | .error e => .error e
    | .ok ps1 => .ok (aset st key ps1)

/-- One line of a JSONL input file.  Modelled from the spec: the Python
`json` module that turns raw text into values is outside the repository, so
a line is given to the engine either as blank, as an unparsable text
(`json.loads` raises), or as the parsed JSON value. -/
inductive Line where
  | blank : Line
  | bad : Line
  | good : Json → Line

/-- Processing one line (lines 138-141): blank lines are skipped, unparsable
lines abort, parsed records are ingested. -/
def ingestLine (st : AggState) : Line → Except PyErr AggState
  | .blank => .ok st
  | .bad => .error .jsonDecodeError
  | .good j => ingestRecord st j

/-- Folding the lines of one file in file order. -/
def ingestAll (st : AggState) : List Line → Except PyErr AggState
  | [] => .ok st
  | l :: ls =>
    match ingestLine st l with
    | .error e => .error e
    | .ok st1 => ingestAll st1 ls

/-- Folding the files in caller-supplied order. -/
def loadFiles (st : AggState) : List (List Line) → Except PyErr AggState
  | [] => .ok st
  | f :: fs =>
    match ingestAll st f with
    | .error e => .error e
    | .ok st1 => loadFiles st1 fs

/-- Embedding of `load_and_aggregate` (lines 132-183).  An uncaught Python
exception propagates out of the function and aborts the run, so the result
is either the finished mapping or the error, never a partial mapping. -/
def load_and_aggregate (files : List (List Line)) : Except PyErr AggState :=
  loadFiles [] files

/-! ### The statistics engine -/

/-- Modelled from the spec: the numeric routines the script imports from
numpy/scipy but which are not part of this repository.  `sqrt` stands for
`np.sqrt`; `tcrit` for the two-sided Student-t critical value at the default
0.95 confidence used by `stats.t.interval(0.95, df, loc, scale)`, which
yields `(loc - tcrit df * scale, loc + tcrit df * scale)`; `welch` for
`stats.ttest_ind(xs, ys, equal_var=False)`, which depends on its samples
only through their sizes, means and sample variances and returns the
t-statistic and the two-sided p-value. -/
structure NumKernel where
  sqrt : ℚ → ℚ
  tcrit : ℕ → ℚ
  welch : ℕ → ℚ → ℚ → ℕ → ℚ → ℚ → ℚ × ℚ

/-- A degenerate kernel used to instantiate kernel-generic theorems on
concrete inputs. -/
def trivKernel : NumKernel :=
  ⟨fun _ => 0, fun _ => 0, fun _ _ _ _ _ _ => (0, 0)⟩

/-- Arithmetic mean `np.mean` (0 on the empty list, matching the guarded
uses in the source). -/
def nmean (xs : List ℚ) : ℚ :=
  xs.sum / xs.length

/-- Bessel-corrected sample variance `np.var(xs, ddof=1)`. -/
def svar (xs : List ℚ) : ℚ :=
  (xs.map (fun x => (x - nmean xs) ^ 2)).sum / ((xs.length : ℚ) - 1)

/-- Sample standard deviation `np.std(xs, ddof=1)`. -/
def nstd (K : NumKernel) (xs : List ℚ) : ℚ :=
  K.sqrt (svar xs)

/-- Standard error of the mean `stats.sem(xs)` (sample std over sqrt n). -/
def nsem (K : NumKernel) (xs : List ℚ) : ℚ :=
  nstd K xs / K.sqrt (xs.length : ℚ)

/-- Numeric sort (ascending), the order numpy uses for min/max/median. -/
def sortQ (xs : List ℚ) : List ℚ :=
  xs.insertionSort (· ≤ ·)

/-- `np.median`: middle element of the sorted list, or the mean of the two
middle elements for even length. -/
def medianQ (xs : List ℚ) : ℚ :=
  let s := sortQ xs
  let n := xs.length
  if n % 2 = 1 then s.getD (n / 2) 0
  else (s.getD (n / 2 - 1) 0 + s.getD (n / 2) 0) / 2

/-- Embedding of `compute_ci` (lines 52-64): below two observations the
interval collapses onto the mean (0 for the empty series); otherwise it is
the Student-t interval centred at the mean with scale `sem`. -/
def compute_ci (K : NumKernel) (data : List ℚ) : ℚ × ℚ × ℚ :=
  if data.length < 2 then
    let m := if data.isEmpty then 0 else nmean data
    (m, m, m)
  else
    let m := nmean data
    let s := nsem K data
    let t := K.tcrit (data.length - 1)
    (m, m - t * s, m + t * s)

/-- The summary dictionary `compute_stats` returns.  The empty-series branch
of the source omits the `ci_width_pct` key, so that field is an `Option`. -/
structure StatSummary where
  n : ℕ
  mean : ℚ
  std : ℚ
  sem : ℚ
  ci_lower : ℚ
  ci_upper : ℚ
  min : ℚ
  max : ℚ
  median : ℚ
  cv : ℚ
  ci_width_pct : Option ℚ
  adequate_sample : Bool

deriving DecidableEq

/-- Embedding of `compute_stats` (lines 67-105). -/
def compute_stats (K : NumKernel) (data : List ℚ) : StatSummary :=
  if data.isEmpty then
    ⟨0, 0, 0, 0, 0, 0, 0, 0, 0, 0, none, false⟩
  else
    let n := data.length
    let std := if 1 < n then nstd K data else 0
    let sem := if 1 < n then nsem K data else 0
    let mci := compute_ci K data
    let m := mci.1
    let cl := mci.2.1
    let cu := mci.2.2
    let cv := if 0 < m then std / m * 100 else 0
    let cwp := if 0 < m then (cu - cl) / m * 100 else 100
    { n := n, mean := m, std := std, sem := sem, ci_lower := cl, ci_upper := cu,
      min := (sortQ data).headD 0, max := (sortQ data).getLastD 0,
      median := medianQ data, cv := cv, ci_width_pct := some cwp,
      adequate_sample := decide (5 ≤ n) && decide (cv < 30) && decide (cwp < 40) }

/-! ### The significance tester -/

/-- One pairwise comparison record produced by `perform_significance_tests`. -/
structure SigResult where
  comparison : String
  t_statistic : ℚ
  p_value : ℚ
  cohens_d : ℚ
  significant_005 : Bool
  significant_001 : Bool

deriving DecidableEq

/-- One candidate pairwise test (lines 196-217): emitted only when both
groups have at least two total-duration observations; Welch statistics come
from the kernel, Cohen's d from the source formula with the zero-variance
fallback. -/
def sigOne (K : NumKernel) (a b : String × ProverStats) : Option SigResult :=
  let xs := a.2.total_durations_ms
  let ys := b.2.total_durations_ms
  if 2 ≤ xs.length ∧ 2 ≤ ys.length then
    let tp := K.welch xs.length (nmean xs) (svar xs) ys.length (nmean ys) (svar ys)
    let pooled := K.sqrt ((svar xs + svar ys) / 2)
    let d := if 0 < pooled then (nmean xs - nmean ys) / pooled else 0
    some ⟨a.1 ++ " vs " ++ b.1, tp.1, tp.2, d,
      decide (tp.2 < 5 / 100), decide (tp.2 < 1 / 100)⟩
  else none

/-- Embedding of `perform_significance_tests` (lines 186-219): all ordered
index pairs i < j of the group list, in insertion order. -/
def perform_significance_tests (K : NumKernel) : AggState → List SigResult
  | [] => []
  | x :: rest => rest.filterMap (fun y => sigOne K x y) ++ perform_significance_tests K rest

/-- All index pairs i < j of a list, in order. -/
def allPairs {α : Type} : List α → List (α × α)
  | [] => []
  | x :: rest => rest.map (fun y => (x, y)) ++ allPairs rest

/-- The data the significance tester reads from one group: its key and the
size, mean and sample variance of its total-duration series. -/
def sigProj (kp : String × ProverStats) : String × ℕ × ℚ × ℚ :=
  (kp.1, kp.2.total_durations_ms.length,
   nmean kp.2.total_durations_ms, svar kp.2.total_durations_ms)

/-- The comparison labels of the significance half of an engine output. -/
def sigComparisons (out : Except PyErr (List (String × GroupView) × List SigResult)) :
    Except PyErr (List String) :=
  out.map fun pr => pr.2.map fun r => r.comparison

/-! ### The engine output handed to renderers -/

/-- Lexicographic sort of the group keys, as `sorted(provers.items())`. -/
def sortStr (xs : List String) : List String :=
  xs.insertionSort (· ≤ ·)

/-- The groups in sorted key order, as every renderer iterates them. -/
def sortedItems (m : AggState) : List (String × ProverStats) :=
  (sortStr (m.map Prod.fst)).filterMap fun k => (alook m k).map fun ps => (k, ps)

/-- The per-group payload of the engine output contract: run counts and the
computed statistics (total duration, optional setup time, optional average
round duration, and the per-round summaries in round order). -/
structure GroupView where
  success_count : ℕ
  failure_count : ℕ
  total_duration : StatSummary
  setup_time : Option StatSummary
  avg_round_duration : Option StatSummary
  per_round : List (ℚ × StatSummary × StatSummary × StatSummary)

deriving DecidableEq

/-- The statistics computed for one group, mirroring the fields assembled by
`export_json` (lines 423-438) and printed by the report. -/
def groupView (K : NumKernel) (ps : ProverStats) : GroupView :=
  { success_count := ps.success_count,
    failure_count := ps.failure_count,
    total_duration := compute_stats K ps.total_durations_ms,
    setup_time :=
      if ps.setup_times_ms.isEmpty then none
      else some (compute_stats K ps.setup_times_ms),
    avg_round_duration :=
      if ps.all_round_durations_ms.isEmpty then none
      else some (compute_stats K ps.all_round_durations_ms),
    per_round :=
      (sortQ (ps.rounds_stats.map Prod.fst)).filterMap fun rn =>
        (alook ps.rounds_stats rn).map fun rs =>
          (rn, compute_stats K rs.durations_ms,
           compute_stats K rs.request_bytes,
           compute_stats K rs.response_bytes) }

/-- The per-group half of the engine output, in sorted key order. -/
def summariesView (K : NumKernel) (m : AggState) : List (String × GroupView) :=
  (sortedItems m).map fun kp => (kp.1, groupView K kp.2)

/-- The engine's final output: per-group computed statistics plus the
pairwise significance results. -/
def engineOutput (K : NumKernel) (files : List (List Line)) :
    Except PyErr (List (String × GroupView) × List SigResult) :=
  (load_and_aggregate files).map fun m =>
    (summariesView K m, perform_significance_tests K m)

/-! ### Renderers (presence structure only) -/

/-- One CSV row of `export_csv`: the group key (written under the column
header `prover_type`), the metric name, and the summary the numeric columns
are rendered from.  The two-decimal string formatting is presentation and
is not modelled. -/
structure CsvRow where
  prover_type : String
  metric : String
  stats : StatSummary

/-- The rows `export_csv` (lines 352-403) writes: groups in sorted key
order, skipping any group with no successes, with total-duration, optional
setup, optional average-round, and per-round rows. -/
def export_csv_rows (K : NumKernel) (m : AggState) : List CsvRow :=
  (sortedItems m).flatMap fun kp =>
    if kp.2.success_count = 0 then []
    else
      [⟨kp.1, "total_duration_ms", compute_stats K kp.2.total_durations_ms⟩] ++
      (if kp.2.setup_times_ms.isEmpty then []
       else [⟨kp.1, "setup_time_ms", compute_stats K kp.2.setup_times_ms⟩]) ++
      (if kp.2.all_round_durations_ms.isEmpty then []
       else [⟨kp.1, "avg_round_duration_ms", compute_stats K kp.2.all_round_durations_ms⟩]) ++
      ((sortQ (kp.2.rounds_stats.map Prod.fst)).filterMap fun rn =>
        (alook kp.2.rounds_stats rn).map fun rs =>
          ⟨kp.1, "round_" ++ toString rn ++ "_duration_ms", compute_stats K rs.durations_ms⟩)

/-- The `provers` mapping `export_json` (lines 410-440) emits: groups in
sorted key order, skipping any group with no successes. -/
def export_json_provers (K : NumKernel) (m : AggState) : List (String × GroupView) :=
  (sortedItems m).filterMap fun kp =>
    if kp.2.success_count = 0 then none else some (kp.1, groupView K kp.2)

/-- One per-group block of the human-readable report (lines 247-259): the
key and the run counts are always printed; `analyzed` records whether the
statistics sections follow (they do not when there are no successes). -/
structure ReportEntry where
  key : String
  success_count : ℕ
  total_runs : ℕ
  analyzed : Bool

deriving DecidableEq

/-- The per-group blocks of `print_report`, in sorted key order. -/
def reportEntries (m : AggState) : List ReportEntry :=
  (sortedItems m).map fun kp =>
    ⟨kp.1, kp.2.success_count, kp.2.success_count + kp.2.failure_count,
     !decide (kp.2.success_count = 0)⟩

/-! ### Closed-form extraction of the accumulator contents

These definitions read the quantities the aggregator accumulates straight
off a record, so that the fold can be characterised per group and per round
and compared across permuted inputs. -/

/-- A numeric field of an object, when present with a numeric value. -/
def oNum (fs : List (String × Json)) (k : String) : Option ℚ :=
  match alook fs k with
  | some (.num q) => some q
  | _ => none

/-- The `results` payload of a record, when it is an object. -/
def resultsOf (j : Json) : Option (List (String × Json)) :=
  match j with
  | .obj rf =>
    match alook rf "results" with
    | some (.obj resf) => some resf
    | _ => none
  | _ => none

/-- Whether a record counts as successful (`record.get("success", False)`
is truthy). -/
def succB (j : Json) : Bool :=
  match j with
  | .obj rf => jTruthy (getD rf "success" (.bool false))
  | _ => false

/-- The total duration a successful record contributes. -/
def extTot (j : Json) : Option ℚ :=
  if succB j then (resultsOf j).bind fun resf => oNum resf "total_duration_ms"
  else none

/-- The setup time a successful record contributes: only a present, truthy
(hence nonzero) numeric `setup_time_ms`. -/
def extSetup (j : Json) : Option ℚ :=
  if succB j then
    match resultsOf j with
    | some resf =>
      if jTruthy (getD resf "setup_time_ms" .null) then
        match getD resf "setup_time_ms" .null with
        | .num q => some q
        | _ => none
      else none
    | none => none
  else none

/-- The round entries a successful record iterates over. -/
def entriesOf (j : Json) : List Json :=
  if succB j then
    match resultsOf j with
    | some resf =>
      match alook resf "rounds" with
      | some (.arr xs) => xs
      | _ => []
    | none => []
  else []

/-- The round index of a round entry. -/
def entryRound (e : Json) : Option ℚ :=
  match e with
  | .obj ef => oNum ef "round"
  | _ => none

/-- The duration of a round entry. -/
def entryDur (e : Json) : Option ℚ :=
  match e with
  | .obj ef => oNum ef "duration_ms"
  | _ => none

/-- The request size of a round entry. -/
def entryReq (e : Json) : Option ℚ :=
  match e with
  | .obj ef => oNum ef "request_bytes"
  | _ => none

/-- The response size of a round entry. -/
def entryResp (e : Json) : Option ℚ :=
  match e with
  | .obj ef => oNum ef "response_bytes"
  | _ => none

/-- Durations of the entries belonging to round `rn`. -/
def rnDur (rn : ℚ) (es : List Json) : List ℚ :=
  es.filterMap fun e => if entryRound e = some rn then entryDur e else none

/-- Request sizes of the entries belonging to round `rn`. -/
def rnReq (rn : ℚ) (es : List Json) : List ℚ :=
  es.filterMap fun e => if entryRound e = some rn then entryReq e else none

/-- Response sizes of the entries belonging to round `rn`. -/
def rnResp (rn : ℚ) (es : List Json) : List ℚ :=
  es.filterMap fun e => if entryRound e = some rn then entryResp e else none

/-- Whether some entry belongs to round `rn`. -/
def hasRn (rn : ℚ) (es : List Json) : Bool :=
  es.any fun e => decide (entryRound e = some rn)

/-- The round accumulator for `rn` after folding the entries `es` on top of
an optional pre-existing accumulator. -/
def roundAcc (rn : ℚ) (base : Option RoundStats) (es : List Json) : Option RoundStats :=
  match base with
  | some rs =>
    some { rs with
      durations_ms := rs.durations_ms ++ rnDur rn es,
      request_bytes := rs.request_bytes ++ rnReq rn es,
      response_bytes := rs.response_bytes ++ rnResp rn es }
  | none =>
    if hasRn rn es then some ⟨rn, rnDur rn es, rnReq rn es, rnResp rn es⟩
    else none

/-- Folding a list of records into one accumulator, left to right; this is
what the aggregator does with the subsequence of records that resolve to a
given key. -/
def stepAll (ps : ProverStats) : List Json → Except PyErr ProverStats
  | [] => .ok ps
  | j :: js =>
    match updatePS j ps with
    | .error e => .error e
    | .ok ps1 => stepAll ps1 js

/-- The group key a record resolves to, when resolution succeeds. -/
def keyOf (j : Json) : Option String :=
  match recordKeyInfo j with
  | .ok kinfo => some kinfo.1
  | .error _ => none

/-- The records of a line batch that resolve to a given key, in order. -/
def recsFor (key : String) (lines : List Line) : List Json :=
  lines.filterMap fun l =>
    match l with
    | .good j => if keyOf j = some key then some j else none
    | _ => none

/-- The fresh accumulator created when a record first introduces its key. -/
def initFor (j : Json) : ProverStats :=
  match recordKeyInfo j with
  | .ok kinfo => newPS kinfo.2.1 kinfo.2.2
  | .error _ => newPS "" none

/-- The facts the round fold guarantees about the accumulator. -/
structure RoundsFacts (ps : ProverStats) (es : List Json) (ps1 : ProverStats) : Prop where
  ptype_eq : ps1.prover_type = ps.prover_type
  ndom_eq : ps1.notary_domain = ps.notary_domain
  success_eq : ps1.success_count = ps.success_count
  failure_eq : ps1.failure_count = ps.failure_count
  totals_eq : ps1.total_durations_ms = ps.total_durations_ms
  setups_eq : ps1.setup_times_ms = ps.setup_times_ms
  all_eq : ps1.all_round_durations_ms = ps.all_round_durations_ms ++ es.filterMap entryDur
  rounds_eq : ∀ rn, alook ps1.rounds_stats rn = roundAcc rn (alook ps.rounds_stats rn) es
  keys_nodup : (ps.rounds_stats.map Prod.fst).Nodup → (ps1.rounds_stats.map Prod.fst).Nodup

/-- The facts one record fold guarantees about the accumulator. -/
structure UpdFacts (ps : ProverStats) (j : Json) (ps1 : ProverStats) : Prop where
  ptype_eq : ps1.prover_type = ps.prover_type
  ndom_eq : ps1.notary_domain = ps.notary_domain
  success_eq : ps1.success_count = ps.success_count + (if succB j then 1 else 0)
  failure_eq : ps1.failure_count = ps.failure_count + (if succB j then 0 else 1)
  totals_eq : ps1.total_durations_ms = ps.total_durations_ms ++ (extTot j).toList
  tot_some : succB j = true → (extTot j).isSome
  setups_eq : ps1.setup_times_ms = ps.setup_times_ms ++ (extSetup j).toList
  all_eq : ps1.all_round_durations_ms =
    ps.all_round_durations_ms ++ (entriesOf j).filterMap entryDur
  rounds_eq : ∀ rn, alook ps1.rounds_stats rn = roundAcc rn (alook ps.rounds_stats rn) (entriesOf j)
  keys_nodup : (ps.rounds_stats.map Prod.fst).Nodup → (ps1.rounds_stats.map Prod.fst).Nodup

/-- The facts folding a record list into one accumulator guarantees. -/
structure RecFacts (ps : ProverStats) (recs : List Json) (ps1 : ProverStats) : Prop where
  ptype_eq : ps1.prover_type = ps.prover_type
  ndom_eq : ps1.notary_domain = ps.notary_domain
  success_eq : ps1.success_count = ps.success_count + recs.countP succB
  failure_eq : ps1.failure_count = ps.failure_count + recs.countP (fun j => !succB j)
  totals_eq : ps1.total_durations_ms = ps.total_durations_ms ++ recs.filterMap extTot
  totlen_eq : (recs.filterMap extTot).length = recs.countP succB
  setups_eq : ps1.setup_times_ms = ps.setup_times_ms ++ recs.filterMap extSetup
  all_eq : ps1.all_round_durations_ms =
    ps.all_round_durations_ms ++ (recs.flatMap entriesOf).filterMap entryDur
  rounds_eq : ∀ rn, alook ps1.rounds_stats rn =
    roundAcc rn (alook ps.rounds_stats rn) (recs.flatMap entriesOf)
  keys_nodup : (ps.rounds_stats.map Prod.fst).Nodup → (ps1.rounds_stats.map Prod.fst).Nodup

/-! ### Concrete inputs used to witness the claims -/

/-- Scenario B prover descriptor with a TEE proxy host. -/
def proxyTeeDescriptor : Json :=
  .obj [("Proxy", .obj [("proxy", .obj [("host", .str "tee-proxy.example.com")])])]

/-- Scenario B prover descriptor with a plain proxy host. -/
def proxyPlainDescriptor : Json :=
  .obj [("Proxy", .obj [("proxy", .obj [("host", .str "plain.example.com")])])]

/-- A successful Direct record with the given total duration. -/
def recDirect (d : ℚ) : Json :=
  .obj [("prover", .obj [("Direct", .obj [])]), ("success", .bool true),
        ("results", .obj [("total_duration_ms", .num d)])]

/-- A successful record with an unrecognized prover tag. -/
def recZeta (d : ℚ) : Json :=
  .obj [("prover", .obj [("Zeta", .obj [])]), ("success", .bool true),
        ("results", .obj [("total_duration_ms", .num d)])]

/-- A failed Direct record (no `success` field, hence falsy). -/
def recDirectFail : Json :=
  .obj [("prover", .obj [("Direct", .obj [])])]

/-- A successful Direct record whose `setup_time_ms` is 0. -/
def recSetupZero : Json :=
  .obj [("prover", .obj [("Direct", .obj [])]), ("success", .bool true),
        ("results", .obj [("total_duration_ms", .num 5), ("setup_time_ms", .num 0)])]

/-- The `results` fields of `recSetupZero`. -/
def resfSetupZero : List (String × Json) :=
  [("total_duration_ms", .num 5), ("setup_time_ms", .num 0)]

/-- A notary sub-attribute that resolution handles without failing: absent,
a string, or a falsy value (which the truthiness checks skip). -/
def strOrHarmless (o : Option Json) : Bool :=
  match o with
  | none => true
  | some (.str _) => true
  | some v => !jTruthy v

/-- Well-formedness of a `TlsSingleShot`/`TlsPerMessage` payload. -/
def tlsPayloadOk (v : Option Json) : Bool :=
  match v with
  | some (.obj tf) =>
    match alook tf "notary" with
    | some (.obj nf) =>
      strOrHarmless (alook nf "domain") && strOrHarmless (alook nf "network_optimization")
    | _ => false
  | _ => false

/-- A successful record whose `results` payload is missing. -/
def missingResults (j : Json) : Prop :=
  ∃ rf, j = .obj rf ∧ jTruthy (getD rf "success" (.bool false)) = true ∧
    alook rf "results" = none

/-- A record whose prover descriptor has no key at all: the shape beyond
even the fallback branch, on which `list(prover.keys())[0]` raises. -/
def emptyProver (j : Json) : Prop :=
  ∃ rf, j = .obj rf ∧ alook rf "prover" = some (.obj [])

/-- The prover descriptors on which the Python resolver runs to completion:
at least one tag, and a payload the taken branch can traverse.  The empty
object and branch-specific malformed payloads are excluded; on those the
Python code raises. -/
def wfProverB (p : Json) : Bool :=
  match p with
  | .obj [] => false
  | .obj fs =>
    if hasKeyO fs "Direct" then true
    else if hasKeyO fs "Proxy" then
      match alook fs "Proxy" with
      | some (.obj wf) =>
        match (alook wf "proxy").getD (.obj wf) with
        | .obj cf =>
          match getD cf "host" (.str "") with
          | .str _ => true
          | _ => false
        | _ => false
      | _ => false
    else if hasKeyO fs "TlsSingleShot" then tlsPayloadOk (alook fs "TlsSingleShot")
    else if hasKeyO fs "TlsPerMessage" then tlsPayloadOk (alook fs "TlsPerMessage")
    else true
  | _ => false

/-- A kernel whose Welch routine always returns p = 1, used to witness the
p-value hypothesis. -/
def pOneKernel : NumKernel :=
  ⟨fun _ => 0, fun _ => 0, fun _ _ _ _ _ _ => (0, 1)⟩

/-- A three-group state: two groups with two observations, one with one. -/
def sigDemoState : AggState :=
  [("A", ⟨"A", none, [1, 2], [], [], [], 2, 0⟩),
   ("B", ⟨"B", none, [3, 4], [], [], [], 2, 0⟩),
   ("C", ⟨"C", none, [5], [], [], [], 1, 0⟩)]

/-! ### Order invariance of the engine output -/

/-- The per-group closed form of a successful run: every series of the
group's accumulator is an extraction over the records resolving to its key,
starting from the fresh accumulator. -/
structure GroupShape (ps : ProverStats) (recs : List Json) : Prop where
  success_eq : ps.success_count = recs.countP succB
  failure_eq : ps.failure_count = recs.countP fun j => !succB j
  totals_eq : ps.total_durations_ms = recs.filterMap extTot
  setups_eq : ps.setup_times_ms = recs.filterMap extSetup
  all_eq : ps.all_round_durations_ms = (recs.flatMap entriesOf).filterMap entryDur
  rounds_eq : ∀ rn, alook ps.rounds_stats rn = roundAcc rn none (recs.flatMap entriesOf)
  keys_nodup : (ps.rounds_stats.map Prod.fst).Nodup

/-! ### Association-list lemmas -/

theorem alook_cons_eq {κ α : Type} [DecidableEq κ] (rest : List (κ × α)) (k : κ) (w : α) :
    alook ((k, w) :: rest) k = some w := by
  simp [alook]

theorem alook_cons_ne {κ α : Type} [DecidableEq κ] (rest : List (κ × α)) (k k1 : κ) (w : α)
    (h : k1 ≠ k) : alook ((k1, w) :: rest) k = alook rest k := by
  simp [alook, h]

theorem aset_cons_eq {κ α : Type} [DecidableEq κ] (rest : List (κ × α)) (k : κ) (v w : α) :
    aset ((k, w) :: rest) k v = (k, v) :: rest := by
  simp [aset]

theorem aset_cons_ne {κ α : Type} [DecidableEq κ] (rest : List (κ × α)) (k k1 : κ) (v w : α)
    (h : k1 ≠ k) : aset ((k1, w) :: rest) k v = (k1, w) :: aset rest k v := by
  simp [aset, h]

theorem alook_aset_self {κ α : Type} [DecidableEq κ] (m : List (κ × α)) (k : κ) (v : α) :
    alook (aset m k v) k = some v := by
  induction m with
  | nil => simp [aset, alook]
  | cons kw rest ih =>
    obtain ⟨k1, w⟩ := kw
    by_cases h : k1 = k
    · simp [aset, h, alook]
    · simp [aset, h, alook, ih]

theorem alook_aset_ne {κ α : Type} [DecidableEq κ] (m : List (κ × α)) (k k2 : κ) (v : α)
    (h : k2 ≠ k) : alook (aset m k v) k2 = alook m k2 := by
  have h' : k ≠ k2 := Ne.symm h
  induction m with
  | nil => simp [aset, alook, h']
  | cons kw rest ih =>
    obtain ⟨k1, w⟩ := kw
    by_cases h1 : k1 = k
    · subst h1
      simp [aset, alook, h']
    · simp [aset, alook, h1, ih]

theorem mem_keys_aset {κ α : Type} [DecidableEq κ] (m : List (κ × α)) (k k2 : κ) (v : α) :
    k2 ∈ (aset m k v).map Prod.fst ↔ k2 = k ∨ k2 ∈ m.map Prod.fst := by
  induction m with
  | nil => simp [aset]
  | cons kw rest ih =>
    obtain ⟨k1, w⟩ := kw
    by_cases h1 : k1 = k
    · subst h1
      rw [aset_cons_eq]
      simp only [List.map_cons, List.mem_cons]
      tauto
    · rw [aset_cons_ne _ _ _ _ _ h1]
      simp only [List.map_cons, List.mem_cons, ih]
      tauto

theorem nodup_keys_aset {κ α : Type} [DecidableEq κ] (m : List (κ × α)) (k : κ) (v : α)
    (h : (m.map Prod.fst).Nodup) : ((aset m k v).map Prod.fst).Nodup := by
  induction m with
  | nil => simp [aset]
  | cons kw rest ih =>
    obtain ⟨k1, w⟩ := kw
    simp only [List.map_cons, List.nodup_cons] at h
    by_cases h1 : k1 = k
    · subst h1
      rw [aset_cons_eq]
      simp only [List.map_cons, List.nodup_cons]
      exact h
    · rw [aset_cons_ne _ _ _ _ _ h1]
      simp only [List.map_cons, List.nodup_cons]
      refine ⟨fun hmem => ?_, ih h.2⟩
      rcases (mem_keys_aset rest k k1 v).mp hmem with h2 | h2
      · exact h1 h2
      · exact h.1 h2

theorem alook_isSome_iff_mem {κ α : Type} [DecidableEq κ] (m : List (κ × α)) (k : κ) :
    (alook m k).isSome ↔ k ∈ m.map Prod.fst := by
  induction m with
  | nil => simp [alook]
  | cons kw rest ih =>
    obtain ⟨k1, w⟩ := kw
    by_cases h : k1 = k
    · simp [alook, h]
    · have h2 : k ≠ k1 := fun hh => h hh.symm
      simp [alook, h, h2, ih]

theorem alook_of_mem {κ α : Type} [DecidableEq κ] (m : List (κ × α)) (k : κ) (v : α)
    (hnd : (m.map Prod.fst).Nodup) (h : (k, v) ∈ m) : alook m k = some v := by
  induction m with
  | nil => simp at h
  | cons kw rest ih =>
    obtain ⟨k1, w⟩ := kw
    simp only [List.map_cons, List.nodup_cons] at hnd
    rcases List.mem_cons.mp h with h1 | h1
    · cases h1
      simp [alook]
    · have hk : k1 ≠ k := by
        intro he
        subst he
        exact hnd.1 (List.mem_map.mpr ⟨(k1, v), h1, rfl⟩)
      simp [alook, hk, ih hnd.2 h1]

theorem mem_of_alook {κ α : Type} [DecidableEq κ] (m : List (κ × α)) (k : κ) (v : α)
    (h : alook m k = some v) : (k, v) ∈ m := by
  induction m with
  | nil => simp [alook] at h
  | cons kw rest ih =>
    obtain ⟨k1, w⟩ := kw
    by_cases h1 : k1 = k
    · subst h1
      rw [alook_cons_eq] at h
      cases h
      exact List.mem_cons_self _ _
    · rw [alook_cons_ne _ _ _ _ h1] at h
      exact List.mem_cons_of_mem _ (ih h)

/-! ### Characterising one round-entry fold -/

theorem getNum_ok_iff (fs : List (String × Json)) (k : String) (q : ℚ) :
    getNum fs k = .ok q ↔ oNum fs k = some q := by
  unfold getNum oNum
  cases alook fs k with
  | none => simp
  | some j => cases j <;> simp

theorem rnDur_cons_eq (rn : ℚ) (rd : Json) (rds : List Json)
    (h : entryRound rd = some rn) : rnDur rn (rd :: rds) = (entryDur rd).toList ++ rnDur rn rds := by
  unfold rnDur
  rw [List.filterMap_cons]
  simp only [h, if_pos rfl]
  cases entryDur rd <;> simp

theorem rnDur_cons_ne (rn : ℚ) (rd : Json) (rds : List Json)
    (h : ¬ entryRound rd = some rn) : rnDur rn (rd :: rds) = rnDur rn rds := by
  unfold rnDur
  rw [List.filterMap_cons]
  simp [h]

theorem rnReq_cons_eq (rn : ℚ) (rd : Json) (rds : List Json)
    (h : entryRound rd = some rn) : rnReq rn (rd :: rds) = (entryReq rd).toList ++ rnReq rn rds := by
  unfold rnReq
  rw [List.filterMap_cons]
  simp only [h, if_pos rfl]
  cases entryReq rd <;> simp

theorem rnReq_cons_ne (rn : ℚ) (rd : Json) (rds : List Json)
    (h : ¬ entryRound rd = some rn) : rnReq rn (rd :: rds) = rnReq rn rds := by
  unfold rnReq
  rw [List.filterMap_cons]
  simp [h]

theorem rnResp_cons_eq (rn : ℚ) (rd : Json) (rds : List Json)
    (h : entryRound rd = some rn) : rnResp rn (rd :: rds) = (entryResp rd).toList ++ rnResp rn rds := by
  unfold rnResp
  rw [List.filterMap_cons]
  simp only [h, if_pos rfl]
  cases entryResp rd <;> simp

theorem rnResp_cons_ne (rn : ℚ) (rd : Json) (rds : List Json)
    (h : ¬ entryRound rd = some rn) : rnResp rn (rd :: rds) = rnResp rn rds := by
  unfold rnResp
  rw [List.filterMap_cons]
  simp [h]

theorem hasRn_cons (rn : ℚ) (rd : Json) (rds : List Json) :
    hasRn rn (rd :: rds) = (decide (entryRound rd = some rn) || hasRn rn rds) := by
  simp [hasRn]

theorem roundAcc_nil (rn : ℚ) (base : Option RoundStats) : roundAcc rn base [] = base := by
  cases base with
  | none => simp [roundAcc, hasRn]
  | some rs => simp [roundAcc, rnDur, rnReq, rnResp]

theorem updateRound_ok (ps : ProverStats) (rd : Json) (ps1 : ProverStats)
    (h : updateRound ps rd = .ok ps1) :
    ∃ rn d rq rb, entryRound rd = some rn ∧ entryDur rd = some d ∧
      entryReq rd = some rq ∧ entryResp rd = some rb ∧
      ps1 = { ps with
        rounds_stats := aset ps.rounds_stats rn
          (let rs := (alook ps.rounds_stats rn).getD ⟨rn, [], [], []⟩
           { rs with
             durations_ms := rs.durations_ms ++ [d],
             request_bytes := rs.request_bytes ++ [rq],
             response_bytes := rs.response_bytes ++ [rb] }),
        all_round_durations_ms := ps.all_round_durations_ms ++ [d] } := by
  cases rd with
  | obj rdf =>
    unfold updateRound at h
    cases hrn : getNum rdf "round" with
    | error e => simp [hrn] at h
    | ok rn =>
      simp only [hrn] at h
      cases hd : getNum rdf "duration_ms" with
      | error e => simp [hd] at h
      | ok d =>
        simp only [hd] at h
        cases hq : getNum rdf "request_bytes" with
        | error e => simp [hq] at h
        | ok rq =>
          simp only [hq] at h
          cases hb : getNum rdf "response_bytes" with
          | error e => simp [hb] at h
          | ok rb =>
            simp only [hb, Except.ok.injEq] at h
            refine ⟨rn, d, rq, rb, ?_, ?_, ?_, ?_, h.symm⟩
            · exact (getNum_ok_iff _ _ _).mp hrn
            · exact (getNum_ok_iff _ _ _).mp hd
            · exact (getNum_ok_iff _ _ _).mp hq
            · exact (getNum_ok_iff _ _ _).mp hb
  | null => simp [updateRound] at h
  | bool b => simp [updateRound] at h
  | num q => simp [updateRound] at h
  | str s => simp [updateRound] at h
  | arr xs => simp [updateRound] at h

theorem processRounds_ok (es : List Json) : ∀ ps ps1 : ProverStats,
    processRounds ps es = .ok ps1 → RoundsFacts ps es ps1 := by
  induction es with
  | nil =>
    intro ps ps1 h
    unfold processRounds at h
    cases h
    exact ⟨rfl, rfl, rfl, rfl, rfl, rfl, by simp, fun rn => (roundAcc_nil rn _).symm, fun h => h⟩
  | cons rd rds ih =>
    intro ps ps1 h
    unfold processRounds at h
    cases hu : updateRound ps rd with
    | error e => simp [hu] at h
    | ok psm =>
      simp only [hu] at h
      obtain ⟨rn0, d, rq, rb, hrn0, hd, hq, hb, hpsm⟩ := updateRound_ok ps rd psm hu
      have F := ih psm ps1 h
      subst hpsm
      refine ⟨F.ptype_eq, F.ndom_eq, F.success_eq, F.failure_eq, F.totals_eq, F.setups_eq, ?_, ?_, ?_⟩
      · rw [F.all_eq]
        simp only [List.filterMap_cons, hd]
        simp [List.append_assoc]
      · intro rn
        rw [F.rounds_eq rn]
        by_cases hr : rn = rn0
        · subst hr
          rw [alook_aset_self]
          cases hbase : alook ps.rounds_stats rn with
          | none =>
            simp only [hbase, Option.getD_none]
            unfold roundAcc
            rw [hasRn_cons]
            simp only [hrn0, decide_eq_true_eq, if_pos rfl, Bool.true_or, if_pos rfl]
            rw [rnDur_cons_eq _ _ _ hrn0, rnReq_cons_eq _ _ _ hrn0, rnResp_cons_eq _ _ _ hrn0]
            by_cases h2 : hasRn rn rds = true
            · simp [h2, hd, hq, hb]
            · simp only [Bool.not_eq_true] at h2
              simp [h2, hd, hq, hb]
          | some rs =>
            simp only [hbase, Option.getD_some]
            unfold roundAcc
            rw [rnDur_cons_eq _ _ _ hrn0, rnReq_cons_eq _ _ _ hrn0, rnResp_cons_eq _ _ _ hrn0]
            simp [hd, hq, hb, List.append_assoc]
        · rw [alook_aset_ne _ _ _ _ hr]
          have hne : ¬ entryRound rd = some rn := by
            rw [hrn0]
            intro hc
            exact hr (Option.some.injEq .. ▸ hc).symm
          cases hbase : alook ps.rounds_stats rn with
          | none =>
            unfold roundAcc
            rw [hasRn_cons]
            simp only [hne, decide_eq_false_iff_not, decide_eq_true_eq]
            rw [rnDur_cons_ne _ _ _ hne, rnReq_cons_ne _ _ _ hne, rnResp_cons_ne _ _ _ hne]
            simp [hne]
          | some rs =>
            unfold roundAcc
            rw [rnDur_cons_ne _ _ _ hne, rnReq_cons_ne _ _ _ hne, rnResp_cons_ne _ _ _ hne]
      · intro hnd
        exact F.keys_nodup (nodup_keys_aset _ _ _ hnd)

/-! ### Characterising one record fold and the record-list fold -/

theorem extTot_of_fail (j : Json) (h : succB j = false) : extTot j = none := by
  simp [extTot, h]

theorem extSetup_of_fail (j : Json) (h : succB j = false) : extSetup j = none := by
  simp [extSetup, h]

theorem entriesOf_of_fail (j : Json) (h : succB j = false) : entriesOf j = [] := by
  simp [entriesOf, h]

theorem filterMap_cons_toList {α β : Type} (f : α → Option β) (a : α) (l : List α) :
    List.filterMap f (a :: l) = (f a).toList ++ List.filterMap f l := by
  cases h : f a <;> simp [List.filterMap_cons, h]

theorem rnDur_append (rn : ℚ) (es1 es2 : List Json) :
    rnDur rn (es1 ++ es2) = rnDur rn es1 ++ rnDur rn es2 :=
  List.filterMap_append ..

theorem rnReq_append (rn : ℚ) (es1 es2 : List Json) :
    rnReq rn (es1 ++ es2) = rnReq rn es1 ++ rnReq rn es2 :=
  List.filterMap_append ..

theorem rnResp_append (rn : ℚ) (es1 es2 : List Json) :
    rnResp rn (es1 ++ es2) = rnResp rn es1 ++ rnResp rn es2 :=
  List.filterMap_append ..

theorem hasRn_append (rn : ℚ) (es1 es2 : List Json) :
    hasRn rn (es1 ++ es2) = (hasRn rn es1 || hasRn rn es2) := by
  simp [hasRn]

theorem rnDur_of_hasRn_false (rn : ℚ) (es : List Json) (h : hasRn rn es = false) :
    rnDur rn es = [] := by
  induction es with
  | nil => simp [rnDur]
  | cons e es ih =>
    rw [hasRn_cons] at h
    obtain ⟨h1, h2⟩ := Bool.or_eq_false_iff.mp h
    rw [rnDur_cons_ne _ _ _ (by simpa using h1)]
    exact ih h2

theorem rnReq_of_hasRn_false (rn : ℚ) (es : List Json) (h : hasRn rn es = false) :
    rnReq rn es = [] := by
  induction es with
  | nil => simp [rnReq]
  | cons e es ih =>
    rw [hasRn_cons] at h
    obtain ⟨h1, h2⟩ := Bool.or_eq_false_iff.mp h
    rw [rnReq_cons_ne _ _ _ (by simpa using h1)]
    exact ih h2

theorem rnResp_of_hasRn_false (rn : ℚ) (es : List Json) (h : hasRn rn es = false) :
    rnResp rn es = [] := by
  induction es with
  | nil => simp [rnResp]
  | cons e es ih =>
    rw [hasRn_cons] at h
    obtain ⟨h1, h2⟩ := Bool.or_eq_false_iff.mp h
    rw [rnResp_cons_ne _ _ _ (by simpa using h1)]
    exact ih h2

theorem roundAcc_append (rn : ℚ) (b : Option RoundStats) (es1 es2 : List Json) :
    roundAcc rn (roundAcc rn b es1) es2 = roundAcc rn b (es1 ++ es2) := by
  cases b with
  | some rs =>
    simp [roundAcc, rnDur_append, rnReq_append, rnResp_append, List.append_assoc]
  | none =>
    by_cases h1 : hasRn rn es1 = true
    · simp [roundAcc, hasRn_append, h1, rnDur_append, rnReq_append, rnResp_append]
    · have h1f : hasRn rn es1 = false := by simpa using h1
      by_cases h2 : hasRn rn es2 = true
      · simp [roundAcc, hasRn_append, h1f, h2, rnDur_append, rnReq_append, rnResp_append,
          rnDur_of_hasRn_false rn es1 h1f, rnReq_of_hasRn_false rn es1 h1f,
          rnResp_of_hasRn_false rn es1 h1f]
      · have h2f : hasRn rn es2 = false := by simpa using h2
        simp [roundAcc, hasRn_append, h1f, h2f]

theorem updFacts_assemble (j : Json) (ps ps2 ps1 : ProverStats)
    (hsucc : succB j = true)
    (F : RoundsFacts ps2 (entriesOf j) ps1)
    (hTot : (extTot j).isSome)
    (h2t : ps2.prover_type = ps.prover_type)
    (h2n : ps2.notary_domain = ps.notary_domain)
    (h2s : ps2.success_count = ps.success_count + 1)
    (h2f : ps2.failure_count = ps.failure_count)
    (h2tot : ps2.total_durations_ms = ps.total_durations_ms ++ (extTot j).toList)
    (h2setup : ps2.setup_times_ms = ps.setup_times_ms ++ (extSetup j).toList)
    (h2all : ps2.all_round_durations_ms = ps.all_round_durations_ms)
    (h2r : ps2.rounds_stats = ps.rounds_stats) : UpdFacts ps j ps1 := by
  refine ⟨F.ptype_eq.trans h2t, F.ndom_eq.trans h2n, ?_, ?_, ?_, fun _ => hTot, ?_, ?_, ?_, ?_⟩
  · rw [F.success_eq, h2s, hsucc]
    simp
  · rw [F.failure_eq, h2f, hsucc]
    simp
  · rw [F.totals_eq, h2tot]
  · rw [F.setups_eq, h2setup]
  · rw [F.all_eq, h2all]
  · intro rn
    rw [F.rounds_eq rn, h2r]
  · intro hnd
    exact F.keys_nodup (h2r ▸ hnd)

theorem updatePS_ok (j : Json) (ps ps1 : ProverStats) (h : updatePS j ps = .ok ps1) :
    UpdFacts ps j ps1 := by
  cases j with
  | obj rf =>
    simp only [updatePS] at h
    cases hs : jTruthy (getD rf "success" (.bool false)) with
    | false =>
      rw [hs, if_neg Bool.false_ne_true] at h
      cases h
      have hsf : succB (Json.obj rf) = false := hs
      refine ⟨rfl, rfl, ?_, ?_, ?_, ?_, ?_, ?_, ?_, fun hc => hc⟩
      · simp [hsf]
      · simp [hsf]
      · simp [extTot_of_fail _ hsf]
      · intro hc
        rw [hsf] at hc
        cases hc
      · simp [extSetup_of_fail _ hsf]
      · simp [entriesOf_of_fail _ hsf]
      · intro rn
        rw [entriesOf_of_fail _ hsf, roundAcc_nil]
    | true =>
      rw [hs, if_pos rfl] at h
      have hsb : succB (Json.obj rf) = true := hs
      cases hres : alook rf "results" with
      | none => simp [hres] at h
      | some res =>
        cases res with
        | obj resf =>
          simp only [hres] at h
          have hro : resultsOf (Json.obj rf) = some resf := by
            simp [resultsOf, hres]
          cases hdur : getNum resf "total_duration_ms" with
          | error e => simp [hdur] at h
          | ok dur =>
            simp only [hdur] at h
            have hTot : extTot (Json.obj rf) = some dur := by
              simp [extTot, hsb, hro, (getNum_ok_iff resf "total_duration_ms" dur).mp hdur]
            cases hsv : jTruthy (getD resf "setup_time_ms" Json.null) with
            | false =>
              rw [hsv, if_neg Bool.false_ne_true] at h
              have hSet : extSetup (Json.obj rf) = none := by
                simp [extSetup, hsb, hro, hsv]
              cases hrds : alook resf "rounds" with
              | none =>
                simp only [hrds] at h
                have hEnt : entriesOf (Json.obj rf) = [] := by
                  simp [entriesOf, hsb, hro, hrds]
                have F := processRounds_ok [] _ _ h
                rw [← hEnt] at F
                refine updFacts_assemble _ ps _ ps1 hsb F ?_ rfl rfl rfl rfl ?_ ?_ rfl rfl
                · simp [hTot]
                · simp [hTot]
                · simp [hSet]
              | some rv =>
                cases rv with
                | arr rds =>
                  simp only [hrds] at h
                  have hEnt : entriesOf (Json.obj rf) = rds := by
                    simp [entriesOf, hsb, hro, hrds]
                  have F := processRounds_ok rds _ _ h
                  rw [← hEnt] at F
                  refine updFacts_assemble _ ps _ ps1 hsb F ?_ rfl rfl rfl rfl ?_ ?_ rfl rfl
                  · simp [hTot]
                  · simp [hTot]
                  · simp [hSet]
                | null => simp [hrds] at h
                | bool b => simp [hrds] at h
                | num q => simp [hrds] at h
                | str s => simp [hrds] at h
                | obj o => simp [hrds] at h
            | true =>
              rw [hsv, if_pos rfl] at h
              cases hsvv : getD resf "setup_time_ms" Json.null with
              | num sq =>
                simp only [hsvv] at h
                have hq : jTruthy (Json.num sq) = true := hsvv ▸ hsv
                have hSet : extSetup (Json.obj rf) = some sq := by
                  simp [extSetup, hsb, hro, hsvv, hq]
                cases hrds : alook resf "rounds" with
                | none =>
                  simp only [hrds] at h
                  have hEnt : entriesOf (Json.obj rf) = [] := by
                    simp [entriesOf, hsb, hro, hrds]
                  have F := processRounds_ok [] _ _ h
                  rw [← hEnt] at F
                  refine updFacts_assemble _ ps _ ps1 hsb F ?_ rfl rfl rfl rfl ?_ ?_ rfl rfl
                  · simp [hTot]
                  · simp [hTot]
                  · simp [hSet]
                | some rv =>
                  cases rv with
                  | arr rds =>
                    simp only [hrds] at h
                    have hEnt : entriesOf (Json.obj rf) = rds := by
                      simp [entriesOf, hsb, hro, hrds]
                    have F := processRounds_ok rds _ _ h
                    rw [← hEnt] at F
                    refine updFacts_assemble _ ps _ ps1 hsb F ?_ rfl rfl rfl rfl ?_ ?_ rfl rfl
                    · simp [hTot]
                    · simp [hTot]
                    · simp [hSet]
                  | null => simp [hrds] at h
                  | bool b => simp [hrds] at h
                  | num q => simp [hrds] at h
                  | str s => simp [hrds] at h
                  | obj o => simp [hrds] at h
              | null => simp [hsvv] at h
              | bool b => simp [hsvv] at h
              | str s => simp [hsvv] at h
              | arr xs => simp [hsvv] at h
              | obj o => simp [hsvv] at h
        | null => simp [hres] at h
        | bool b => simp [hres] at h
        | num q => simp [hres] at h
        | str s => simp [hres] at h
        | arr xs => simp [hres] at h
  | null => simp [updatePS] at h
  | bool b => simp [updatePS] at h
  | num q => simp [updatePS] at h
  | str s => simp [updatePS] at h
  | arr xs => simp [updatePS] at h

theorem stepAll_ok (recs : List Json) : ∀ ps ps1 : ProverStats,
    stepAll ps recs = .ok ps1 → RecFacts ps recs ps1 := by
  induction recs with
  | nil =>
    intro ps ps1 h
    unfold stepAll at h
    cases h
    refine ⟨rfl, rfl, by simp, by simp, by simp, by simp, by simp, by simp, ?_, fun h => h⟩
    intro rn
    simp [roundAcc_nil]
  | cons j js ih =>
    intro ps ps1 h
    unfold stepAll at h
    cases hu : updatePS j ps with
    | error e => simp [hu] at h
    | ok mid =>
      simp only [hu] at h
      have U := updatePS_ok j ps mid hu
      have F := ih mid ps1 h
      refine ⟨F.ptype_eq.trans U.ptype_eq, F.ndom_eq.trans U.ndom_eq, ?_, ?_, ?_, ?_, ?_, ?_, ?_, ?_⟩
      · rw [F.success_eq, U.success_eq, List.countP_cons]
        cases hsj : succB j <;> simp [hsj]
        omega
      · rw [F.failure_eq, U.failure_eq, List.countP_cons]
        cases hsj : succB j <;> simp [hsj]
        omega
      · rw [F.totals_eq, U.totals_eq, filterMap_cons_toList, List.append_assoc]
      · rw [filterMap_cons_toList, List.countP_cons, List.length_append]
        cases hsj : succB j with
        | true =>
          have := U.tot_some hsj
          cases hx : extTot j with
          | none => rw [hx] at this; cases this
          | some q => simp [hx, hsj, F.totlen_eq, Nat.add_comm]
        | false => simp [extTot_of_fail _ hsj, hsj, F.totlen_eq]
      · rw [F.setups_eq, U.setups_eq, filterMap_cons_toList, List.append_assoc]
      · rw [F.all_eq, U.all_eq, List.flatMap_cons, List.filterMap_append, List.append_assoc]
      · intro rn
        rw [F.rounds_eq rn, U.rounds_eq rn, List.flatMap_cons, roundAcc_append]
      · intro hnd
        exact F.keys_nodup (U.keys_nodup hnd)

/-! ### Characterising the whole ingestion per group key -/

theorem ingestRecord_ok (st : AggState) (j : Json) (st1 : AggState)
    (h : ingestRecord st j = .ok st1) :
    ∃ key pt nd ps1, recordKeyInfo j = .ok (key, pt, nd) ∧
      updatePS j ((alook st key).getD (newPS pt nd)) = .ok ps1 ∧
      st1 = aset st key ps1 := by
  unfold ingestRecord at h
  cases hk : recordKeyInfo j with
  | error e => simp [hk] at h
  | ok kinfo =>
    obtain ⟨key, pt, nd⟩ := kinfo
    simp only [hk] at h
    cases hu : updatePS j ((alook st key).getD (newPS pt nd)) with
    | error e => simp [hu] at h
    | ok ps1 =>
      simp only [hu, Except.ok.injEq] at h
      exact ⟨key, pt, nd, ps1, rfl, hu, h.symm⟩

theorem keyOf_of_recordKeyInfo (j : Json) (key : String) (pt : String) (nd : Option Json)
    (h : recordKeyInfo j = .ok (key, pt, nd)) : keyOf j = some key := by
  simp [keyOf, h]

theorem initFor_of_recordKeyInfo (j : Json) (key : String) (pt : String) (nd : Option Json)
    (h : recordKeyInfo j = .ok (key, pt, nd)) : initFor j = newPS pt nd := by
  simp [initFor, h]

theorem recsFor_cons_good_eq (key : String) (j : Json) (ls : List Line)
    (h : keyOf j = some key) : recsFor key (.good j :: ls) = j :: recsFor key ls := by
  simp [recsFor, List.filterMap_cons, h]

theorem recsFor_cons_good_ne (key : String) (j : Json) (ls : List Line)
    (h : ¬ keyOf j = some key) : recsFor key (.good j :: ls) = recsFor key ls := by
  simp [recsFor, List.filterMap_cons, h]

theorem recsFor_cons_blank (key : String) (ls : List Line) :
    recsFor key (.blank :: ls) = recsFor key ls := by
  simp [recsFor, List.filterMap_cons]

theorem recsFor_cons_bad (key : String) (ls : List Line) :
    recsFor key (.bad :: ls) = recsFor key ls := by
  simp [recsFor, List.filterMap_cons]

/-- The central per-key characterisation of ingestion: after a successful
run, the accumulator stored under each key is exactly the fold of the
records that resolve to that key, starting from the accumulator the key
already had (or the fresh accumulator created by its first record). -/
theorem ingestAll_ok_key (lines : List Line) : ∀ st m : AggState,
    ingestAll st lines = .ok m → ∀ key : String,
    (∀ ps, alook st key = some ps →
      ∃ ps1, stepAll ps (recsFor key lines) = .ok ps1 ∧ alook m key = some ps1) ∧
    (alook st key = none →
      (recsFor key lines = [] → alook m key = none) ∧
      (∀ j js, recsFor key lines = j :: js →
        ∃ ps1, stepAll (initFor j) (j :: js) = .ok ps1 ∧ alook m key = some ps1)) := by
  induction lines with
  | nil =>
    intro st m h key
    unfold ingestAll at h
    cases h
    constructor
    · intro ps hps
      exact ⟨ps, by simp [recsFor, stepAll], hps⟩
    · intro hnone
      refine ⟨fun _ => hnone, fun j js hjs => ?_⟩
      simp [recsFor] at hjs
  | cons l ls ih =>
    intro st m h key
    unfold ingestAll at h
    cases hL : ingestLine st l with
    | error e => simp [hL] at h
    | ok st1 =>
      simp only [hL] at h
      cases l with
      | blank =>
        have hst : st1 = st := by
          simpa [ingestLine] using hL.symm
        subst hst
        rw [recsFor_cons_blank]
        exact ih _ m h key
      | bad => simp [ingestLine] at hL
      | good j =>
        have hIR : ingestRecord st j = .ok st1 := hL
        obtain ⟨k0, pt, nd, ps1, hk, hu, hst1⟩ := ingestRecord_ok st j st1 hIR
        have hkeyOf := keyOf_of_recordKeyInfo j k0 pt nd hk
        by_cases hkk : k0 = key
        · subst hkk
          rw [recsFor_cons_good_eq _ _ _ hkeyOf]
          constructor
          · intro ps hps
            have hps0 : (alook st k0).getD (newPS pt nd) = ps := by
              rw [hps]
              rfl
            rw [hps0] at hu
            have hst1look : alook st1 k0 = some ps1 := by
              rw [hst1]
              exact alook_aset_self ..
            obtain ⟨ps2, hstep, hfinal⟩ := ((ih st1 m h k0).1) ps1 hst1look
            refine ⟨ps2, ?_, hfinal⟩
            unfold stepAll
            rw [hu]
            exact hstep
          · intro hnone
            have hps0 : (alook st k0).getD (newPS pt nd) = newPS pt nd := by
              rw [hnone]
              rfl
            rw [hps0] at hu
            refine ⟨fun hc => absurd hc (List.cons_ne_nil _ _), fun j2 js2 hjs2 => ?_⟩
            have hj2 : j2 = j ∧ js2 = recsFor k0 ls := by
              cases hjs2
              exact ⟨rfl, rfl⟩
            obtain ⟨rfl, rfl⟩ := hj2
            have hst1look : alook st1 k0 = some ps1 := by
              rw [hst1]
              exact alook_aset_self ..
            obtain ⟨ps2, hstep, hfinal⟩ := ((ih st1 m h k0).1) ps1 hst1look
            refine ⟨ps2, ?_, hfinal⟩
            rw [initFor_of_recordKeyInfo _ k0 pt nd hk]
            unfold stepAll
            rw [hu]
            exact hstep
        · have hkne : ¬ keyOf j = some key := by
            rw [hkeyOf]
            intro hc
            cases hc
            exact hkk rfl
          rw [recsFor_cons_good_ne _ _ _ hkne]
          have hlook : alook st1 key = alook st key := by
            rw [hst1]
            exact alook_aset_ne _ _ _ _ (fun hc => hkk hc.symm)
          have IH := ih st1 m h key
          constructor
          · intro ps hps
            exact IH.1 ps (hlook.trans hps)
          · intro hnone
            exact IH.2 (hlook.trans hnone)

/-- Key-set characterisation of ingestion: keys are never deleted, a key is
present after a successful run exactly when it was present before or some
record resolves to it, and distinctness of keys is preserved. -/
theorem ingestAll_ok_keys (lines : List Line) : ∀ st m : AggState,
    ingestAll st lines = .ok m →
    ((st.map Prod.fst).Nodup → (m.map Prod.fst).Nodup) ∧
    ∀ k : String, k ∈ m.map Prod.fst ↔ k ∈ st.map Prod.fst ∨ recsFor k lines ≠ [] := by
  induction lines with
  | nil =>
    intro st m h
    unfold ingestAll at h
    cases h
    exact ⟨fun hnd => hnd, fun k => by simp [recsFor]⟩
  | cons l ls ih =>
    intro st m h
    unfold ingestAll at h
    cases hL : ingestLine st l with
    | error e => simp [hL] at h
    | ok st1 =>
      simp only [hL] at h
      cases l with
      | blank =>
        have hst : st1 = st := by
          simpa [ingestLine] using hL.symm
        subst hst
        obtain ⟨hnd, hmem⟩ := ih _ m h
        refine ⟨hnd, fun k => ?_⟩
        rw [hmem k, recsFor_cons_blank]
      | bad => simp [ingestLine] at hL
      | good j =>
        have hIR : ingestRecord st j = .ok st1 := hL
        obtain ⟨k0, pt, nd, ps1, hk, hu, hst1⟩ := ingestRecord_ok st j st1 hIR
        have hkeyOf := keyOf_of_recordKeyInfo j k0 pt nd hk
        obtain ⟨hnd, hmem⟩ := ih st1 m h
        subst hst1
        constructor
        · intro hnd0
          exact hnd (nodup_keys_aset _ _ _ hnd0)
        · intro k
          rw [hmem k, mem_keys_aset]
          by_cases hkk : k0 = k
          · subst hkk
            rw [recsFor_cons_good_eq _ _ _ hkeyOf]
            simp
          · have hkne : ¬ keyOf j = some k := by
              rw [hkeyOf]
              intro hc
              cases hc
              exact hkk rfl
            rw [recsFor_cons_good_ne _ _ _ hkne]
            constructor
            · rintro ((h1 | h1) | h1)
              · exact absurd h1.symm hkk
              · exact Or.inl h1
              · exact Or.inr h1
            · rintro (h1 | h1)
              · exact Or.inl (Or.inr h1)
              · exact Or.inr h1

/-! ### From files to one flat line stream -/

theorem ingestAll_cons (st : AggState) (l : Line) (ls : List Line) :
    ingestAll st (l :: ls) =
      match ingestLine st l with
      | .error e => .error e
      | .ok st1 => ingestAll st1 ls := rfl

theorem loadFiles_cons (st : AggState) (f : List Line) (fs : List (List Line)) :
    loadFiles st (f :: fs) =
      match ingestAll st f with
      | .error e => .error e
      | .ok st1 => loadFiles st1 fs := rfl

theorem ingestAll_append (a b : List Line) : ∀ st : AggState,
    ingestAll st (a ++ b) =
      match ingestAll st a with
      | .error e => .error e
      | .ok st1 => ingestAll st1 b := by
  induction a with
  | nil =>
    intro st
    simp [ingestAll]
  | cons l ls ih =>
    intro st
    rw [List.cons_append, ingestAll_cons, ingestAll_cons]
    cases hL : ingestLine st l with
    | error e => rfl
    | ok st1 => exact ih st1

theorem loadFiles_eq_flatten (fs : List (List Line)) : ∀ st : AggState,
    loadFiles st fs = ingestAll st fs.flatten := by
  induction fs with
  | nil =>
    intro st
    simp [loadFiles, ingestAll]
  | cons f fs ih =>
    intro st
    rw [List.flatten_cons, ingestAll_append, loadFiles_cons]
    cases hL : ingestAll st f with
    | error e => rfl
    | ok st1 => exact ih st1

/-- Per-key characterisation of a whole successful run, from the empty
initial state. -/
theorem load_ok_key (files : List (List Line)) (m : AggState)
    (h : load_and_aggregate files = .ok m) (key : String) :
    (recsFor key files.flatten = [] → alook m key = none) ∧
    (∀ j js, recsFor key files.flatten = j :: js →
      ∃ ps1, stepAll (initFor j) (j :: js) = .ok ps1 ∧ alook m key = some ps1) := by
  have h2 : ingestAll [] files.flatten = .ok m := by
    rw [← loadFiles_eq_flatten]
    exact h
  have H := ingestAll_ok_key files.flatten [] m h2 key
  exact H.2 rfl

/-- Key-set characterisation of a whole successful run. -/
theorem load_ok_keys (files : List (List Line)) (m : AggState)
    (h : load_and_aggregate files = .ok m) :
    (m.map Prod.fst).Nodup ∧
    ∀ k : String, k ∈ m.map Prod.fst ↔ recsFor k files.flatten ≠ [] := by
  have h2 : ingestAll [] files.flatten = .ok m := by
    rw [← loadFiles_eq_flatten]
    exact h
  obtain ⟨hnd, hmem⟩ := ingestAll_ok_keys files.flatten [] m h2
  refine ⟨hnd (by simp), fun k => ?_⟩
  rw [hmem k]
  simp

/-! ### Permutation invariance of the statistics -/

theorem sortPerm_eq {α : Type} [LinearOrder α] (l1 l2 : List α) (h : l1.Perm l2) :
    l1.insertionSort (· ≤ ·) = l2.insertionSort (· ≤ ·) := by
  haveI : IsAntisymm α (· ≤ ·) := ⟨fun a b h1 h2 => le_antisymm h1 h2⟩
  haveI : IsTotal α (· ≤ ·) := ⟨fun a b => le_total a b⟩
  haveI : IsTrans α (· ≤ ·) := ⟨fun a b c h1 h2 => le_trans h1 h2⟩
  exact List.eq_of_perm_of_sorted
    ((List.perm_insertionSort _ l1).trans (h.trans (List.perm_insertionSort _ l2).symm))
    (List.sorted_insertionSort _ l1) (List.sorted_insertionSort _ l2)

theorem sortQ_perm_eq (l1 l2 : List ℚ) (h : l1.Perm l2) : sortQ l1 = sortQ l2 :=
  sortPerm_eq l1 l2 h

theorem sortStr_perm_eq (l1 l2 : List String) (h : l1.Perm l2) : sortStr l1 = sortStr l2 :=
  sortPerm_eq l1 l2 h

theorem isEmpty_eq_decide {α : Type} (l : List α) : l.isEmpty = decide (l.length = 0) := by
  cases l <;> simp

theorem nmean_perm (xs ys : List ℚ) (h : xs.Perm ys) : nmean xs = nmean ys := by
  unfold nmean
  rw [h.sum_eq, h.length_eq]

theorem svar_perm (xs ys : List ℚ) (h : xs.Perm ys) : svar xs = svar ys := by
  unfold svar
  rw [nmean_perm xs ys h, (h.map (fun x => (x - nmean ys) ^ 2)).sum_eq, h.length_eq]

theorem nstd_perm (K : NumKernel) (xs ys : List ℚ) (h : xs.Perm ys) : nstd K xs = nstd K ys := by
  unfold nstd
  rw [svar_perm xs ys h]

theorem nsem_perm (K : NumKernel) (xs ys : List ℚ) (h : xs.Perm ys) : nsem K xs = nsem K ys := by
  unfold nsem
  rw [nstd_perm K xs ys h, h.length_eq]

theorem medianQ_perm (xs ys : List ℚ) (h : xs.Perm ys) : medianQ xs = medianQ ys := by
  unfold medianQ
  rw [sortQ_perm_eq xs ys h, h.length_eq]

theorem compute_ci_perm (K : NumKernel) (xs ys : List ℚ) (h : xs.Perm ys) :
    compute_ci K xs = compute_ci K ys := by
  unfold compute_ci
  rw [nmean_perm xs ys h, nsem_perm K xs ys h, h.length_eq,
    isEmpty_eq_decide, isEmpty_eq_decide, h.length_eq]

theorem compute_stats_perm (K : NumKernel) (xs ys : List ℚ) (h : xs.Perm ys) :
    compute_stats K xs = compute_stats K ys := by
  unfold compute_stats
  rw [isEmpty_eq_decide, isEmpty_eq_decide, h.length_eq]
  by_cases hy : ys.length = 0
  · simp [hy]
  · have hc : ¬(decide (ys.length = 0) = true) := by simpa using hy
    rw [if_neg hc, if_neg hc]
    simp only [nmean_perm xs ys h, nstd_perm K xs ys h, nsem_perm K xs ys h,
      compute_ci_perm K xs ys h, sortQ_perm_eq xs ys h, medianQ_perm xs ys h, h.length_eq]

theorem countP_add_countP_not {α : Type} (p : α → Bool) (l : List α) :
    l.countP p + l.countP (fun a => !p a) = l.length := by
  induction l with
  | nil => simp
  | cons a l ih =>
    rw [List.countP_cons, List.countP_cons]
    cases hp : p a <;> simp [hp] <;> omega

theorem initFor_zero (j : Json) :
    (initFor j).success_count = 0 ∧ (initFor j).failure_count = 0 ∧
    (initFor j).total_durations_ms = [] ∧ (initFor j).setup_times_ms = [] ∧
    (initFor j).all_round_durations_ms = [] ∧ (initFor j).rounds_stats = [] := by
  unfold initFor
  cases recordKeyInfo j with
  | ok kinfo => exact ⟨rfl, rfl, rfl, rfl, rfl, rfl⟩
  | error e => exact ⟨rfl, rfl, rfl, rfl, rfl, rfl⟩

/-! ### Claim theorems -/

/-- C1: the claim states that the two Proxy records with hosts
"tee-proxy.example.com" and "plain.example.com" receive the group keys
"Proxy-TEE" and "Proxy".  This is false: `parse_prover_type` returns the
proxy host as the peer-domain attribute, so the key construction appends
the shortened host, yielding "Proxy-TEE (tee-proxy)" and "Proxy (plain)". -/
theorem c1_counterexample :
    proverKey proxyTeeDescriptor ≠ .ok "Proxy-TEE" ∧
    proverKey proxyPlainDescriptor ≠ .ok "Proxy" ∧
    proverKey proxyTeeDescriptor = .ok "Proxy-TEE (tee-proxy)" ∧
    proverKey proxyPlainDescriptor = .ok "Proxy (plain)" :=
  ⟨by decide, by decide, by decide, by decide⟩

/-- C1 (amended): the two Proxy records are assigned the group keys
"Proxy-TEE (tee-proxy)" and "Proxy (plain)" respectively — the base label
distinguished purely by the case-insensitive "tee" substring of the host,
with the short proxy host appended as the peer-domain attribute — and a
whole run over the two records produces exactly those two group keys. -/
theorem c1_amended_keys :
    proverKey proxyTeeDescriptor = .ok "Proxy-TEE (tee-proxy)" ∧
    proverKey proxyPlainDescriptor = .ok "Proxy (plain)" ∧
    (load_and_aggregate
        [[.good (.obj [("prover", proxyTeeDescriptor)]),
          .good (.obj [("prover", proxyPlainDescriptor)])]]).map
      (fun m => m.map Prod.fst) =
      .ok ["Proxy-TEE (tee-proxy)", "Proxy (plain)"] :=
  ⟨by decide, by decide, by decide⟩

/-- C5: the claim states that a single-element series yields
`mean = std = sem = 0`.  The chained equality fails: the mean of `[1000]`
is `1000`, not `0`. -/
theorem c5_counterexample :
    ¬((compute_stats trivKernel [1000]).mean = 0 ∧
      (compute_stats trivKernel [1000]).std = 0 ∧
      (compute_stats trivKernel [1000]).sem = 0) ∧
    (compute_stats trivKernel [1000]).mean = 1000 := by
  constructor
  · intro hc
    have h1 : (compute_stats trivKernel [1000]).mean = 1000 := by
      norm_num [compute_stats, compute_ci, nmean]
    rw [hc.1] at h1
    norm_num at h1
  · norm_num [compute_stats, compute_ci, nmean]

/-- C5 (amended): for every single-element series `[x]` and every numeric
kernel, `compute_stats` yields `mean = x`, `std = sem = 0`, and a
confidence interval that collapses to `[mean, mean]`. -/
theorem c5_single_element_amended (K : NumKernel) (x : ℚ) :
    (compute_stats K [x]).mean = x ∧
    (compute_stats K [x]).std = 0 ∧
    (compute_stats K [x]).sem = 0 ∧
    (compute_stats K [x]).ci_lower = (compute_stats K [x]).mean ∧
    (compute_stats K [x]).ci_upper = (compute_stats K [x]).mean := by
  norm_num [compute_stats, compute_ci, nmean]

/-- C6: the claim states that `compute_stats([])` sets every other field,
including `ci_width_pct`, to 0.  This is false for `ci_width_pct`: the
empty-series branch of the source omits that key from the returned
dictionary altogether. -/
theorem c6_counterexample :
    (compute_stats trivKernel []).ci_width_pct = none ∧
    (none : Option ℚ) ≠ some 0 :=
  ⟨rfl, by decide⟩

/-- C6 (amended): `compute_stats([])` yields `n = 0`,
`adequate_sample = false`, every other field that the empty-series summary
carries (mean, std, sem, ci_lower, ci_upper, min, max, median, cv) equal to
0, and no `ci_width_pct` entry at all (that key is produced only for
non-empty series). -/
theorem c6_empty_series_amended (K : NumKernel) :
    compute_stats K [] = ⟨0, 0, 0, 0, 0, 0, 0, 0, 0, 0, none, false⟩ :=
  rfl

/-- C9: on every successfully folded record the setup-time series gains
exactly the record extract `extSetup` (present-and-truthy setup times);
in particular a present `setup_time_ms` of 0 is treated as absent, while a
nonzero one is appended. -/
theorem c9_setup_truthiness (j : Json) (ps ps1 : ProverStats) (resf : List (String × Json))
    (h : updatePS j ps = .ok ps1) (hres : resultsOf j = some resf) (hsucc : succB j = true) :
    ps1.setup_times_ms = ps.setup_times_ms ++ (extSetup j).toList ∧
    (∀ q : ℚ, alook resf "setup_time_ms" = some (.num q) → q ≠ 0 →
      ps1.setup_times_ms = ps.setup_times_ms ++ [q]) ∧
    (alook resf "setup_time_ms" = some (.num 0) →
      ps1.setup_times_ms = ps.setup_times_ms) ∧
    (alook resf "setup_time_ms" = none →
      ps1.setup_times_ms = ps.setup_times_ms) := by
  have U := updatePS_ok j ps ps1 h
  refine ⟨U.setups_eq, ?_, ?_, ?_⟩
  · intro q hq hq0
    have hset : extSetup j = some q := by
      simp [extSetup, hsucc, hres, getD, hq, jTruthy, hq0]
    rw [U.setups_eq, hset]
    rfl
  · intro hq
    have hset : extSetup j = none := by
      simp [extSetup, hsucc, hres, getD, hq, jTruthy]
    rw [U.setups_eq, hset]
    simp
  · intro hq
    have hset : extSetup j = none := by
      simp [extSetup, hsucc, hres, getD, hq, jTruthy]
    rw [U.setups_eq, hset]
    simp

/-- C9 witness: folding a successful record whose `setup_time_ms` is 0
leaves the setup-time series empty. -/
theorem c9_witness :
    updatePS recSetupZero (newPS "Direct" none) =
      .ok ⟨"Direct", none, [5], [], [], [], 1, 0⟩ ∧
    (⟨"Direct", none, [5], [], [], [], 1, 0⟩ : ProverStats).setup_times_ms = [] := by
  have H := c9_setup_truthiness recSetupZero (newPS "Direct" none)
    ⟨"Direct", none, [5], [], [], [], 1, 0⟩ resfSetupZero rfl rfl rfl
  exact ⟨rfl, (H.2.2.1 rfl).trans rfl⟩

/-- C2: after any successful run, each group's success and failure counters
sum to the number of ingested records that resolve to that group's key, and
its total-duration series has one entry per successful record. -/
theorem c2_aggregator_invariant (files : List (List Line)) (m : AggState)
    (key : String) (ps : ProverStats)
    (h : load_and_aggregate files = .ok m) (hmem : (key, ps) ∈ m) :
    ps.success_count + ps.failure_count = (recsFor key files.flatten).length ∧
    ps.total_durations_ms.length = ps.success_count := by
  obtain ⟨hnd, _⟩ := load_ok_keys files m h
  have halook := alook_of_mem m key ps hnd hmem
  obtain ⟨hempty, hcons⟩ := load_ok_key files m h key
  cases hr : recsFor key files.flatten with
  | nil =>
    rw [hempty hr] at halook
    cases halook
  | cons j js =>
    obtain ⟨ps1, hstep, hfin⟩ := hcons j js hr
    have hps : ps = ps1 := Option.some.inj (halook.symm.trans hfin)
    subst hps
    have F := stepAll_ok (j :: js) (initFor j) ps hstep
    obtain ⟨hz1, hz2, hz3, _, _, _⟩ := initFor_zero j
    constructor
    · rw [F.success_eq, F.failure_eq, hz1, hz2]
      simpa using countP_add_countP_not succB (j :: js)
    · rw [F.totals_eq, hz3, List.nil_append, F.totlen_eq, F.success_eq, hz1, Nat.zero_add]

/-- C2 witness: one successful and one failed Direct record give counts
1 + 1 = 2 with a single total-duration entry. -/
theorem c2_witness :
    (⟨"Direct", none, [1], [], [], [], 1, 1⟩ : ProverStats).success_count +
        (⟨"Direct", none, [1], [], [], [], 1, 1⟩ : ProverStats).failure_count =
      (recsFor "Direct" [[Line.good (recDirect 1), Line.good recDirectFail]].flatten).length ∧
    (⟨"Direct", none, [1], [], [], [], 1, 1⟩ : ProverStats).total_durations_ms.length =
      (⟨"Direct", none, [1], [], [], [], 1, 1⟩ : ProverStats).success_count ∧
    (recsFor "Direct" [[Line.good (recDirect 1), Line.good recDirectFail]].flatten).length = 2 := by
  have H := c2_aggregator_invariant [[Line.good (recDirect 1), Line.good recDirectFail]]
    [("Direct", ⟨"Direct", none, [1], [], [], [], 1, 1⟩)] "Direct"
    ⟨"Direct", none, [1], [], [], [], 1, 1⟩ rfl (List.mem_singleton.mpr rfl)
  exact ⟨H.1, H.2, rfl⟩

theorem keyWithDomain_ok (pt : String) (nd : Option Json) (h : strOrHarmless nd = true) :
    ∃ k, keyWithDomain pt nd = .ok k := by
  cases nd with
  | none => exact ⟨pt, rfl⟩
  | some d =>
    cases d with
    | str s =>
      cases ht : jTruthy (.str s) with
      | true => exact ⟨pt ++ " (" ++ shortDomain s ++ ")", by simp [keyWithDomain, ht]⟩
      | false => exact ⟨pt, by simp [keyWithDomain, ht]⟩
    | null => exact ⟨pt, by simp [keyWithDomain, jTruthy]⟩
    | bool b =>
      simp only [strOrHarmless, jTruthy, Bool.not_eq_true'] at h
      exact ⟨pt, by simp [keyWithDomain, jTruthy, h]⟩
    | num q =>
      simp only [strOrHarmless, jTruthy, Bool.not_eq_true'] at h
      exact ⟨pt, by simp [keyWithDomain, jTruthy, h]⟩
    | arr xs =>
      simp only [strOrHarmless, jTruthy, Bool.not_eq_true'] at h
      exact ⟨pt, by simp [keyWithDomain, jTruthy, h]⟩
    | obj fs2 =>
      simp only [strOrHarmless, jTruthy, Bool.not_eq_true'] at h
      exact ⟨pt, by simp [keyWithDomain, jTruthy, h]⟩

theorem keyWithOpt_ok (k1 : String) (no : Option Json) (h : strOrHarmless no = true) :
    ∃ k, keyWithOpt k1 no = .ok k := by
  cases no with
  | none => exact ⟨k1, rfl⟩
  | some o =>
    cases o with
    | str s =>
      cases ht : jTruthy (.str s) with
      | true => exact ⟨k1 ++ " [" ++ s ++ "]", by simp [keyWithOpt, ht]⟩
      | false => exact ⟨k1, by simp [keyWithOpt, ht]⟩
    | null => exact ⟨k1, by simp [keyWithOpt, jTruthy]⟩
    | bool b =>
      simp only [strOrHarmless, jTruthy, Bool.not_eq_true'] at h
      exact ⟨k1, by simp [keyWithOpt, jTruthy, h]⟩
    | num q =>
      simp only [strOrHarmless, jTruthy, Bool.not_eq_true'] at h
      exact ⟨k1, by simp [keyWithOpt, jTruthy, h]⟩
    | arr xs =>
      simp only [strOrHarmless, jTruthy, Bool.not_eq_true'] at h
      exact ⟨k1, by simp [keyWithOpt, jTruthy, h]⟩
    | obj fs2 =>
      simp only [strOrHarmless, jTruthy, Bool.not_eq_true'] at h
      exact ⟨k1, by simp [keyWithOpt, jTruthy, h]⟩

theorem makeKey_ok (pt : String) (nd no : Option Json)
    (h1 : strOrHarmless nd = true) (h2 : strOrHarmless no = true) :
    ∃ k, makeKey pt nd no = .ok k := by
  obtain ⟨k1, hk1⟩ := keyWithDomain_ok pt nd h1
  obtain ⟨k, hk⟩ := keyWithOpt_ok k1 no h2
  refine ⟨k, ?_⟩
  unfold makeKey
  rw [hk1]
  exact hk

theorem proverKey_ok_of_parse (p : Json) (pt : String) (nd no : Option Json)
    (hp : parse_prover_type p = .ok (pt, nd, no))
    (h1 : strOrHarmless nd = true) (h2 : strOrHarmless no = true) :
    ∃ k, proverKey p = .ok k := by
  obtain ⟨k, hk⟩ := makeKey_ok pt nd no h1 h2
  refine ⟨k, ?_⟩
  simp [proverKey, proverKeyInfo, hp, hk, Except.map]

theorem proverKey_ok_of_wf (p : Json) (h : wfProverB p = true) :
    ∃ k, proverKey p = .ok k := by
  cases p with
  | obj fs =>
    cases fs with
    | nil => simp [wfProverB] at h
    | cons kv rest =>
      by_cases hD : hasKeyO (kv :: rest) "Direct" = true
      · exact proverKey_ok_of_parse _ "Direct" none none
          (by simp [parse_prover_type, hD]) rfl rfl
      · have hDf : hasKeyO (kv :: rest) "Direct" = false := by simpa using hD
        by_cases hP : hasKeyO (kv :: rest) "Proxy" = true
        · cases hw : alook (kv :: rest) "Proxy" with
          | none => simp [wfProverB, hDf, hP, hw] at h
          | some w =>
            cases w with
            | obj wf =>
              cases hcfg : (alook wf "proxy").getD (.obj wf) with
              | obj cf =>
                cases hhost : getD cf "host" (.str "") with
                | str s =>
                  by_cases hsub : hasSub "tee".data (lowerChars s) = true
                  · exact proverKey_ok_of_parse _ "Proxy-TEE" (some (.str s)) none
                      (by simp [parse_prover_type, hDf, hP, hw, hcfg, hhost, hsub]) rfl rfl
                  · have hsubf : hasSub "tee".data (lowerChars s) = false := by simpa using hsub
                    exact proverKey_ok_of_parse _ "Proxy" (some (.str s)) none
                      (by simp [parse_prover_type, hDf, hP, hw, hcfg, hhost, hsubf]) rfl rfl
                | null => simp [wfProverB, hDf, hP, hw, hcfg, hhost] at h
                | bool b => simp [wfProverB, hDf, hP, hw, hcfg, hhost] at h
                | num q => simp [wfProverB, hDf, hP, hw, hcfg, hhost] at h
                | arr xs => simp [wfProverB, hDf, hP, hw, hcfg, hhost] at h
                | obj o => simp [wfProverB, hDf, hP, hw, hcfg, hhost] at h
              | null => simp [wfProverB, hDf, hP, hw, hcfg] at h
              | bool b => simp [wfProverB, hDf, hP, hw, hcfg] at h
              | num q => simp [wfProverB, hDf, hP, hw, hcfg] at h
              | str s => simp [wfProverB, hDf, hP, hw, hcfg] at h
              | arr xs => simp [wfProverB, hDf, hP, hw, hcfg] at h
            | null => simp [wfProverB, hDf, hP, hw] at h
            | bool b => simp [wfProverB, hDf, hP, hw] at h
            | num q => simp [wfProverB, hDf, hP, hw] at h
            | str s => simp [wfProverB, hDf, hP, hw] at h
            | arr xs => simp [wfProverB, hDf, hP, hw] at h
        · have hPf : hasKeyO (kv :: rest) "Proxy" = false := by simpa using hP
          by_cases hT : hasKeyO (kv :: rest) "TlsSingleShot" = true
          · cases hw : alook (kv :: rest) "TlsSingleShot" with
            | none => simp [wfProverB, hDf, hPf, hT, hw, tlsPayloadOk] at h
            | some w =>
              cases w with
              | obj tf =>
                cases hN : alook tf "notary" with
                | none => simp [wfProverB, hDf, hPf, hT, hw, hN, tlsPayloadOk] at h
                | some nv =>
                  cases nv with
                  | obj nf =>
                    simp only [wfProverB, hDf, hPf, hT, hw, hN, tlsPayloadOk] at h
                    simp only [Bool.false_eq_true, if_false, if_true, Bool.and_eq_true] at h
                    exact proverKey_ok_of_parse _ "TlsSingleShot"
                      (alook nf "domain") (alook nf "network_optimization")
                      (by simp [parse_prover_type, hDf, hPf, hT, hw, hN]) h.1 h.2
                  | null => simp [wfProverB, hDf, hPf, hT, hw, hN, tlsPayloadOk] at h
                  | bool b => simp [wfProverB, hDf, hPf, hT, hw, hN, tlsPayloadOk] at h
                  | num q => simp [wfProverB, hDf, hPf, hT, hw, hN, tlsPayloadOk] at h
                  | str s => simp [wfProverB, hDf, hPf, hT, hw, hN, tlsPayloadOk] at h
                  | arr xs => simp [wfProverB, hDf, hPf, hT, hw, hN, tlsPayloadOk] at h
              | null => simp [wfProverB, hDf, hPf, hT, hw, tlsPayloadOk] at h
              | bool b => simp [wfProverB, hDf, hPf, hT, hw, tlsPayloadOk] at h
              | num q => simp [wfProverB, hDf, hPf, hT, hw, tlsPayloadOk] at h
              | str s => simp [wfProverB, hDf, hPf, hT, hw, tlsPayloadOk] at h
              | arr xs => simp [wfProverB, hDf, hPf, hT, hw, tlsPayloadOk] at h
          · have hTf : hasKeyO (kv :: rest) "TlsSingleShot" = false := by simpa using hT
            by_cases hM : hasKeyO (kv :: rest) "TlsPerMessage" = true
            · cases hw : alook (kv :: rest) "TlsPerMessage" with
              | none => simp [wfProverB, hDf, hPf, hTf, hM, hw, tlsPayloadOk] at h
              | some w =>
                cases w with
                | obj tf =>
                  cases hN : alook tf "notary" with
                  | none => simp [wfProverB, hDf, hPf, hTf, hM, hw, hN, tlsPayloadOk] at h
                  | some nv =>
                    cases nv with
                    | obj nf =>
                      simp only [wfProverB, hDf, hPf, hTf, hM, hw, hN, tlsPayloadOk] at h
                      simp only [Bool.false_eq_true, if_false, if_true, Bool.and_eq_true] at h
                      exact proverKey_ok_of_parse _ "TlsPerMessage"
                        (alook nf "domain") (alook nf "network_optimization")
                        (by simp [parse_prover_type, hDf, hPf, hTf, hM, hw, hN]) h.1 h.2
                    | null => simp [wfProverB, hDf, hPf, hTf, hM, hw, hN, tlsPayloadOk] at h
                    | bool b => simp [wfProverB, hDf, hPf, hTf, hM, hw, hN, tlsPayloadOk] at h
                    | num q => simp [wfProverB, hDf, hPf, hTf, hM, hw, hN, tlsPayloadOk] at h
                    | str s => simp [wfProverB, hDf, hPf, hTf, hM, hw, hN, tlsPayloadOk] at h
                    | arr xs => simp [wfProverB, hDf, hPf, hTf, hM, hw, hN, tlsPayloadOk] at h
                | null => simp [wfProverB, hDf, hPf, hTf, hM, hw, tlsPayloadOk] at h
                | bool b => simp [wfProverB, hDf, hPf, hTf, hM, hw, tlsPayloadOk] at h
                | num q => simp [wfProverB, hDf, hPf, hTf, hM, hw, tlsPayloadOk] at h
                | str s => simp [wfProverB, hDf, hPf, hTf, hM, hw, tlsPayloadOk] at h
                | arr xs => simp [wfProverB, hDf, hPf, hTf, hM, hw, tlsPayloadOk] at h
            · have hMf : hasKeyO (kv :: rest) "TlsPerMessage" = false := by simpa using hM
              exact proverKey_ok_of_parse _ kv.1 none none
                (by simp [parse_prover_type, hDf, hPf, hTf, hMf]) rfl rfl
  | null => simp [wfProverB] at h
  | bool b => simp [wfProverB] at h
  | num q => simp [wfProverB] at h
  | str s => simp [wfProverB] at h
  | arr xs => simp [wfProverB] at h

/-- C7: the claim states the resolver is total on every shape, including
"any other shape".  It is not: on an empty prover object the fallback
`list(prover.keys())[0]` raises an IndexError. -/
theorem c7_counterexample :
    parse_prover_type (.obj []) = .error .indexError ∧
    proverKey (.obj []) = .error .indexError :=
  ⟨rfl, rfl⟩

/-- C7 (amended): the resolver is deterministic (it is a pure function of
its input) and, on every descriptor with at least one tag whose payload the
taken branch can traverse, it produces exactly one key without failing. -/
theorem c7_resolver_total_amended (p : Json) (h : wfProverB p = true) :
    ∃! k, proverKey p = .ok k := by
  obtain ⟨k, hk⟩ := proverKey_ok_of_wf p h
  exact ⟨k, hk, fun k1 hk1 => (Except.ok.inj (hk.symm.trans hk1)).symm⟩

/-- C7 witness: a Direct descriptor is well formed and resolves to the
single key "Direct". -/
theorem c7_witness :
    wfProverB (.obj [("Direct", .obj [])]) = true ∧
    proverKey (.obj [("Direct", .obj [])]) = .ok "Direct" ∧
    (∃! k, proverKey (.obj [("Direct", .obj [])]) = .ok k) :=
  ⟨rfl, rfl, c7_resolver_total_amended (.obj [("Direct", .obj [])]) rfl⟩

theorem ingestRecord_err_of_missingResults (j : Json) (hm : missingResults j) (st : AggState) :
    ∃ e, ingestRecord st j = .error e := by
  obtain ⟨rf, rfl, hs, hres⟩ := hm
  unfold ingestRecord
  cases hk : recordKeyInfo (.obj rf) with
  | error e => exact ⟨e, by simp⟩
  | ok kinfo =>
    obtain ⟨key, pt, nd⟩ := kinfo
    refine ⟨.keyError "results", ?_⟩
    have hupd : ∀ ps : ProverStats, updatePS (.obj rf) ps = .error (.keyError "results") := by
      intro ps
      simp only [updatePS]
      rw [hs, if_pos rfl, hres]
    simp [hupd]

theorem ingestRecord_err_of_emptyProver (j : Json) (hm : emptyProver j) (st : AggState) :
    ∃ e, ingestRecord st j = .error e := by
  obtain ⟨rf, rfl, hp⟩ := hm
  have hk : recordKeyInfo (.obj rf) = .error .indexError := by
    simp [recordKeyInfo, hp, proverKeyInfo, parse_prover_type, hasKeyO, alook]
  exact ⟨.indexError, by simp [ingestRecord, hk]⟩

theorem ingestAll_err_of_fatal (l : Line) (hf : ∀ st : AggState, ∃ e, ingestLine st l = .error e) :
    ∀ ls : List Line, l ∈ ls → ∀ st : AggState, ∃ e, ingestAll st ls = .error e := by
  intro ls
  induction ls with
  | nil => intro hmem; cases hmem
  | cons l0 ls ih =>
    intro hmem st
    rw [ingestAll_cons]
    cases hL : ingestLine st l0 with
    | error e => exact ⟨e, rfl⟩
    | ok st1 =>
      rcases List.mem_cons.mp hmem with rfl | hmem2
      · obtain ⟨e, he⟩ := hf st
        rw [he] at hL
        cases hL
      · exact ih hmem2 st1

/-- C4: the claim states that the run aborts "with a diagnostic identifying
the offending file/line".  The abort is real, but the diagnostic identifies
neither: `load_and_aggregate` opens files and iterates lines without ever
attaching the file or the line index to an error (the `json.loads`
exception positions only within the text of the single line it parsed, and
KeyError/IndexError carry no location), so the same unparsable text aborts
the run with the identical error whether it is the only line of the only
file or sits behind other lines in a later file. -/
theorem c4_counterexample :
    load_and_aggregate [[Line.bad]] = .error .jsonDecodeError ∧
    load_and_aggregate [[Line.good (recDirect 1)], [Line.blank, Line.bad]] =
      .error .jsonDecodeError ∧
    load_and_aggregate [[Line.bad]] =
      load_and_aggregate [[Line.good (recDirect 1)], [Line.blank, Line.bad]] :=
  ⟨rfl, rfl, rfl⟩

/-- C4 (amended): any batch containing an unparsable line, a successful
record with no `results` payload, or a record whose prover has no key at
all (the shape beyond even the fallback branch) makes the whole run abort,
with the raised error as its diagnostic — one identifying the failure
condition but not the offending file or line — and no mapping, partial or
otherwise, is produced. -/
theorem c4_fatal_ingestion (files : List (List Line))
    (h : ∃ f ∈ files, ∃ l ∈ f,
      l = Line.bad ∨ ∃ j, l = Line.good j ∧ (missingResults j ∨ emptyProver j)) :
    (∃ e, load_and_aggregate files = .error e) ∧
    ∀ m : AggState, load_and_aggregate files ≠ .ok m := by
  obtain ⟨f, hf, l, hl, hcase⟩ := h
  have hfatal : ∀ st : AggState, ∃ e, ingestLine st l = .error e := by
    rcases hcase with rfl | ⟨j, rfl, hmr | hep⟩
    · exact fun st => ⟨.jsonDecodeError, rfl⟩
    · exact fun st => ingestRecord_err_of_missingResults j hmr st
    · exact fun st => ingestRecord_err_of_emptyProver j hep st
  have hmem : l ∈ files.flatten := List.mem_flatten.mpr ⟨f, hf, hl⟩
  obtain ⟨e, he⟩ := ingestAll_err_of_fatal l hfatal files.flatten hmem []
  have hrun : load_and_aggregate files = .error e := by
    unfold load_and_aggregate
    rw [loadFiles_eq_flatten]
    exact he
  refine ⟨⟨e, hrun⟩, fun m hm => ?_⟩
  rw [hrun] at hm
  cases hm

/-- C4 witness: a single unparsable line aborts the whole run. -/
theorem c4_witness :
    (∃ e, load_and_aggregate [[Line.bad]] = .error e) ∧
    (∀ m : AggState, load_and_aggregate [[Line.bad]] ≠ .ok m) ∧
    load_and_aggregate [[Line.bad]] = .error .jsonDecodeError := by
  have H := c4_fatal_ingestion [[Line.bad]]
    ⟨[Line.bad], List.mem_singleton.mpr rfl, Line.bad, List.mem_singleton.mpr rfl, Or.inl rfl⟩
  exact ⟨H.1, H.2, rfl⟩

theorem sortedItems_mem_alook (m : AggState) (kp : String × ProverStats)
    (h : kp ∈ sortedItems m) : alook m kp.1 = some kp.2 := by
  unfold sortedItems at h
  obtain ⟨k1, hk1, hmap⟩ := List.mem_filterMap.mp h
  cases ha : alook m k1 with
  | none => rw [ha] at hmap; cases hmap
  | some ps1 =>
    rw [ha] at hmap
    cases hmap
    exact ha

theorem alook_mem_sortedItems (m : AggState) (key : String) (ps : ProverStats)
    (h : alook m key = some ps) : (key, ps) ∈ sortedItems m := by
  unfold sortedItems
  apply List.mem_filterMap.mpr
  refine ⟨key, ?_, by rw [h]; rfl⟩
  have hmem : key ∈ m.map Prod.fst := (alook_isSome_iff_mem m key).mp (by rw [h]; rfl)
  exact ((List.perm_insertionSort _ _).mem_iff).mpr hmem

/-- C10: a group with zero successes is omitted entirely from the CSV rows
and the JSON provers mapping — its failure count included — yet it appears
in the human-readable report with its run counts. -/
theorem c10_export_omission (K : NumKernel) (m : AggState) (key : String) (ps : ProverStats)
    (halook : alook m key = some ps) (hzero : ps.success_count = 0) :
    (∀ row ∈ export_csv_rows K m, row.prover_type ≠ key) ∧
    (∀ entry ∈ export_json_provers K m, entry.1 ≠ key) ∧
    (⟨key, 0, ps.failure_count, false⟩ : ReportEntry) ∈ reportEntries m := by
  refine ⟨?_, ?_, ?_⟩
  · intro row hrow
    unfold export_csv_rows at hrow
    obtain ⟨kp, hkp, hin⟩ := List.mem_flatMap.mp hrow
    by_cases hz : kp.2.success_count = 0
    · rw [if_pos hz] at hin
      cases hin
    · rw [if_neg hz] at hin
      intro hkey
      have hfst : row.prover_type = kp.1 := by
        rcases List.mem_append.mp hin with hin1 | hin1
        · rcases List.mem_append.mp hin1 with hin2 | hin2
          · rcases List.mem_append.mp hin2 with hin3 | hin3
            · cases List.mem_singleton.mp hin3
              rfl
            · by_cases hse : kp.2.setup_times_ms.isEmpty
              · rw [if_pos hse] at hin3
                cases hin3
              · rw [if_neg hse] at hin3
                cases List.mem_singleton.mp hin3
                rfl
          · by_cases har : kp.2.all_round_durations_ms.isEmpty
            · rw [if_pos har] at hin2
              cases hin2
            · rw [if_neg har] at hin2
              cases List.mem_singleton.mp hin2
              rfl
        · obtain ⟨rn, _, hrn⟩ := List.mem_filterMap.mp hin1
          cases hx : alook kp.2.rounds_stats rn with
          | none => rw [hx] at hrn; cases hrn
          | some rs =>
            rw [hx] at hrn
            cases hrn
            rfl
      rw [hkey] at hfst
      have := sortedItems_mem_alook m kp hkp
      rw [← hfst, halook] at this
      cases this
      exact hz hzero
  · intro entry hentry
    unfold export_json_provers at hentry
    obtain ⟨kp, hkp, hsome⟩ := List.mem_filterMap.mp hentry
    by_cases hz : kp.2.success_count = 0
    · rw [if_pos hz] at hsome
      cases hsome
    · rw [if_neg hz] at hsome
      cases hsome
      intro hkey
      have := sortedItems_mem_alook m kp hkp
      rw [hkey, halook] at this
      cases this
      exact hz hzero
  · unfold reportEntries
    apply List.mem_map.mpr
    refine ⟨(key, ps), alook_mem_sortedItems m key ps halook, ?_⟩
    simp [hzero]

/-- C10 witness: a group holding one failed run is absent from both exports
but present in the report with counts 0 of 1. -/
theorem c10_witness :
    (∀ row ∈ export_csv_rows trivKernel
        [("Direct", (⟨"Direct", none, [], [], [], [], 0, 1⟩ : ProverStats))],
      row.prover_type ≠ "Direct") ∧
    export_csv_rows trivKernel
        [("Direct", (⟨"Direct", none, [], [], [], [], 0, 1⟩ : ProverStats))] = [] ∧
    export_json_provers trivKernel
        [("Direct", (⟨"Direct", none, [], [], [], [], 0, 1⟩ : ProverStats))] = [] ∧
    reportEntries [("Direct", (⟨"Direct", none, [], [], [], [], 0, 1⟩ : ProverStats))] =
      [⟨"Direct", 0, 1, false⟩] := by
  have H := c10_export_omission trivKernel
    [("Direct", (⟨"Direct", none, [], [], [], [], 0, 1⟩ : ProverStats))] "Direct"
    ⟨"Direct", none, [], [], [], [], 0, 1⟩ rfl rfl
  exact ⟨H.1, rfl, rfl, rfl⟩

theorem sig_eq_filterMap_pairs (K : NumKernel) (m : AggState) :
    perform_significance_tests K m = (allPairs m).filterMap fun pp => sigOne K pp.1 pp.2 := by
  induction m with
  | nil => rfl
  | cons x rest ih =>
    unfold perform_significance_tests allPairs
    rw [List.filterMap_append, ih, List.filterMap_map]
    rfl

theorem sigOne_isSome_iff (K : NumKernel) (a b : String × ProverStats) :
    (sigOne K a b).isSome ↔
      2 ≤ a.2.total_durations_ms.length ∧ 2 ≤ b.2.total_durations_ms.length := by
  unfold sigOne
  by_cases h : 2 ≤ a.2.total_durations_ms.length ∧ 2 ≤ b.2.total_durations_ms.length <;>
    simp [h]

theorem sigOne_some_p (K : NumKernel) (a b : String × ProverStats) (r : SigResult)
    (h : sigOne K a b = some r) :
    ∃ n1 m1 v1 n2 m2 v2, r.p_value = (K.welch n1 m1 v1 n2 m2 v2).2 := by
  unfold sigOne at h
  by_cases hc : 2 ≤ a.2.total_durations_ms.length ∧ 2 ≤ b.2.total_durations_ms.length
  · rw [if_pos hc] at h
    cases h
    exact ⟨_, _, _, _, _, _, rfl⟩
  · rw [if_neg hc] at h
    cases h

/-- C8: the significance tester emits a result for an index pair of groups
exactly when both groups have at least two total-duration observations
(shorter pairs are silently absent), and — given that the Welch routine
returns a two-sided p-value in the unit interval, as scipy's does — every
emitted result has a p_value in [0, 1]. -/
theorem c8_significance_emission (K : NumKernel) (m : AggState)
    (hp : ∀ (n1 : ℕ) (m1 v1 : ℚ) (n2 : ℕ) (m2 v2 : ℚ),
      0 ≤ (K.welch n1 m1 v1 n2 m2 v2).2 ∧ (K.welch n1 m1 v1 n2 m2 v2).2 ≤ 1) :
    perform_significance_tests K m = ((allPairs m).filterMap fun pp => sigOne K pp.1 pp.2) ∧
    (∀ a b : String × ProverStats, (sigOne K a b).isSome ↔
      2 ≤ a.2.total_durations_ms.length ∧ 2 ≤ b.2.total_durations_ms.length) ∧
    ∀ r ∈ perform_significance_tests K m, 0 ≤ r.p_value ∧ r.p_value ≤ 1 := by
  refine ⟨sig_eq_filterMap_pairs K m, fun a b => sigOne_isSome_iff K a b, fun r hr => ?_⟩
  rw [sig_eq_filterMap_pairs K m] at hr
  obtain ⟨pp, _, hsome⟩ := List.mem_filterMap.mp hr
  obtain ⟨n1, m1, v1, n2, m2, v2, hpv⟩ := sigOne_some_p K pp.1 pp.2 r hsome
  rw [hpv]
  exact hp n1 m1 v1 n2 m2 v2

/-- C8 witness: on the three-group state only the A-B pair is tested, its
p-value is in [0, 1], and the pair with the one-observation group C is
absent. -/
theorem c8_witness :
    ((perform_significance_tests pOneKernel sigDemoState).map fun r => r.comparison) =
      ["A vs B"] ∧
    (∀ r ∈ perform_significance_tests pOneKernel sigDemoState,
      0 ≤ r.p_value ∧ r.p_value ≤ 1) ∧
    (sigOne pOneKernel ("A", ⟨"A", none, [1, 2], [], [], [], 2, 0⟩)
      ("C", ⟨"C", none, [5], [], [], [], 1, 0⟩)).isSome = false := by
  have H := c8_significance_emission pOneKernel sigDemoState
    (fun n1 m1 v1 n2 m2 v2 => by constructor <;> norm_num [pOneKernel])
  exact ⟨rfl, H.2.2, rfl⟩

theorem load_groupShape (files : List (List Line)) (m : AggState) (key : String)
    (ps : ProverStats) (h : load_and_aggregate files = .ok m)
    (ha : alook m key = some ps) : GroupShape ps (recsFor key files.flatten) := by
  obtain ⟨hempty, hcons⟩ := load_ok_key files m h key
  cases hr : recsFor key files.flatten with
  | nil =>
    rw [hempty hr] at ha
    cases ha
  | cons j js =>
    obtain ⟨ps1, hstep, hfin⟩ := hcons j js hr
    have hps : ps = ps1 := Option.some.inj (ha.symm.trans hfin)
    subst hps
    have F := stepAll_ok (j :: js) (initFor j) ps hstep
    obtain ⟨hz1, hz2, hz3, hz4, hz5, hz6⟩ := initFor_zero j
    refine ⟨?_, ?_, ?_, ?_, ?_, ?_, ?_⟩
    · rw [F.success_eq, hz1, Nat.zero_add]
    · rw [F.failure_eq, hz2, Nat.zero_add]
    · rw [F.totals_eq, hz3, List.nil_append]
    · rw [F.setups_eq, hz4, List.nil_append]
    · rw [F.all_eq, hz5, List.nil_append]
    · intro rn
      rw [F.rounds_eq rn, hz6]
      rfl
    · apply F.keys_nodup
      rw [hz6]
      simp

theorem hasRn_perm (rn : ℚ) (E1 E2 : List Json) (h : E1.Perm E2) :
    hasRn rn E1 = hasRn rn E2 := by
  unfold hasRn
  rw [Bool.eq_iff_iff, List.any_eq_true, List.any_eq_true]
  constructor
  · rintro ⟨e, he, hp⟩
    exact ⟨e, h.mem_iff.mp he, hp⟩
  · rintro ⟨e, he, hp⟩
    exact ⟨e, h.mem_iff.mpr he, hp⟩

theorem groupView_congr (K : NumKernel) (p1 p2 : ProverStats) (recs1 recs2 : List Json)
    (G1 : GroupShape p1 recs1) (G2 : GroupShape p2 recs2) (hperm : recs1.Perm recs2) :
    groupView K p1 = groupView K p2 := by
  have hent : (recs1.flatMap entriesOf).Perm (recs2.flatMap entriesOf) :=
    List.Perm.flatMap_right entriesOf hperm
  have htot : p1.total_durations_ms.Perm p2.total_durations_ms := by
    rw [G1.totals_eq, G2.totals_eq]
    exact hperm.filterMap extTot
  have hsetup : p1.setup_times_ms.Perm p2.setup_times_ms := by
    rw [G1.setups_eq, G2.setups_eq]
    exact hperm.filterMap extSetup
  have hall : p1.all_round_durations_ms.Perm p2.all_round_durations_ms := by
    rw [G1.all_eq, G2.all_eq]
    exact hent.filterMap entryDur
  have hrkeys : (p1.rounds_stats.map Prod.fst).Perm (p2.rounds_stats.map Prod.fst) := by
    rw [List.perm_ext_iff_of_nodup G1.keys_nodup G2.keys_nodup]
    intro rn
    rw [← alook_isSome_iff_mem, ← alook_isSome_iff_mem, G1.rounds_eq rn, G2.rounds_eq rn]
    unfold roundAcc
    rw [hasRn_perm rn _ _ hent]
    cases hasRn rn (recs2.flatMap entriesOf) <;> simp
  unfold groupView
  simp only [isEmpty_eq_decide]
  rw [G1.success_eq, G2.success_eq, hperm.countP_eq,
    G1.failure_eq, G2.failure_eq, hperm.countP_eq,
    compute_stats_perm K _ _ htot,
    hsetup.length_eq, hall.length_eq,
    compute_stats_perm K _ _ hsetup, compute_stats_perm K _ _ hall,
    sortQ_perm_eq _ _ hrkeys]
  refine congrArg _ ?_
  apply List.filterMap_congr
  intro rn _
  rw [G1.rounds_eq rn, G2.rounds_eq rn]
  unfold roundAcc
  rw [hasRn_perm rn _ _ hent]
  cases hasRn rn (recs2.flatMap entriesOf) with
  | false => rfl
  | true =>
    have hd : compute_stats K (rnDur rn (recs1.flatMap entriesOf)) =
        compute_stats K (rnDur rn (recs2.flatMap entriesOf)) :=
      compute_stats_perm K _ _ (by unfold rnDur; exact hent.filterMap _)
    have hq : compute_stats K (rnReq rn (recs1.flatMap entriesOf)) =
        compute_stats K (rnReq rn (recs2.flatMap entriesOf)) :=
      compute_stats_perm K _ _ (by unfold rnReq; exact hent.filterMap _)
    have hb : compute_stats K (rnResp rn (recs1.flatMap entriesOf)) =
        compute_stats K (rnResp rn (recs2.flatMap entriesOf)) :=
      compute_stats_perm K _ _ (by unfold rnResp; exact hent.filterMap _)
    simp [hd, hq, hb]

theorem summariesView_eq (K : NumKernel) (files1 files2 : List (List Line))
    (m1 m2 : AggState)
    (h1 : load_and_aggregate files1 = .ok m1) (h2 : load_and_aggregate files2 = .ok m2)
    (hp : files1.flatten.Perm files2.flatten) :
    summariesView K m1 = summariesView K m2 := by
  obtain ⟨hnd1, hmem1⟩ := load_ok_keys files1 m1 h1
  obtain ⟨hnd2, hmem2⟩ := load_ok_keys files2 m2 h2
  have hrecs : ∀ k, (recsFor k files1.flatten).Perm (recsFor k files2.flatten) := by
    intro k
    unfold recsFor
    exact hp.filterMap _
  have hkeys : (m1.map Prod.fst).Perm (m2.map Prod.fst) := by
    rw [List.perm_ext_iff_of_nodup hnd1 hnd2]
    intro k
    rw [hmem1 k, hmem2 k]
    have hiff : recsFor k files1.flatten = [] ↔ recsFor k files2.flatten = [] := by
      constructor
      · intro hA
        have hAB := hrecs k
        rw [hA] at hAB
        exact hAB.symm.eq_nil
      · intro hB
        have hAB := hrecs k
        rw [hB] at hAB
        exact hAB.eq_nil
    exact not_congr hiff
  have hsorted : sortStr (m1.map Prod.fst) = sortStr (m2.map Prod.fst) :=
    sortStr_perm_eq _ _ hkeys
  unfold summariesView sortedItems
  rw [hsorted, List.map_filterMap, List.map_filterMap]
  apply List.filterMap_congr
  intro k hk
  have hk2 : k ∈ m2.map Prod.fst := ((List.perm_insertionSort _ _).mem_iff).mp hk
  have hk1 : k ∈ m1.map Prod.fst := hkeys.mem_iff.mpr hk2
  obtain ⟨p1, hp1⟩ := Option.isSome_iff_exists.mp ((alook_isSome_iff_mem m1 k).mpr hk1)
  obtain ⟨p2, hp2⟩ := Option.isSome_iff_exists.mp ((alook_isSome_iff_mem m2 k).mpr hk2)
  have G1 := load_groupShape files1 m1 k p1 h1 hp1
  have G2 := load_groupShape files2 m2 k p2 h2 hp2
  have hgv := groupView_congr K p1 p2 _ _ G1 G2 (hrecs k)
  rw [hp1, hp2]
  simp [hgv]

theorem sigOne_congr (K : NumKernel) (a b a1 b1 : String × ProverStats)
    (ha : sigProj a = sigProj a1) (hb : sigProj b = sigProj b1) :
    sigOne K a b = sigOne K a1 b1 := by
  have ha1 : a.1 = a1.1 := congrArg (fun x : String × ℕ × ℚ × ℚ => x.1) ha
  have ha2 : a.2.total_durations_ms.length = a1.2.total_durations_ms.length :=
    congrArg (fun x : String × ℕ × ℚ × ℚ => x.2.1) ha
  have ha3 : nmean a.2.total_durations_ms = nmean a1.2.total_durations_ms :=
    congrArg (fun x : String × ℕ × ℚ × ℚ => x.2.2.1) ha
  have ha4 : svar a.2.total_durations_ms = svar a1.2.total_durations_ms :=
    congrArg (fun x : String × ℕ × ℚ × ℚ => x.2.2.2) ha
  have hb1 : b.1 = b1.1 := congrArg (fun x : String × ℕ × ℚ × ℚ => x.1) hb
  have hb2 : b.2.total_durations_ms.length = b1.2.total_durations_ms.length :=
    congrArg (fun x : String × ℕ × ℚ × ℚ => x.2.1) hb
  have hb3 : nmean b.2.total_durations_ms = nmean b1.2.total_durations_ms :=
    congrArg (fun x : String × ℕ × ℚ × ℚ => x.2.2.1) hb
  have hb4 : svar b.2.total_durations_ms = svar b1.2.total_durations_ms :=
    congrArg (fun x : String × ℕ × ℚ × ℚ => x.2.2.2) hb
  unfold sigOne
  simp only [ha1, ha2, ha3, ha4, hb1, hb2, hb3, hb4]

theorem sigFilter_congr (K : NumKernel) (x y : String × ProverStats)
    (hxy : sigProj x = sigProj y) : ∀ t t2 : AggState, t.map sigProj = t2.map sigProj →
    (t.filterMap fun b => sigOne K x b) = t2.filterMap fun b => sigOne K y b := by
  intro t
  induction t with
  | nil =>
    intro t2 h
    rw [List.map_eq_nil_iff.mp h.symm]
    simp
  | cons b t ih =>
    intro t2 h
    cases t2 with
    | nil => simp at h
    | cons b2 t2 =>
      simp only [List.map_cons, List.cons.injEq] at h
      obtain ⟨hb, ht⟩ := h
      rw [List.filterMap_cons, List.filterMap_cons, sigOne_congr K x b y b2 hxy hb, ih t2 ht]

theorem sigPairs_congr (K : NumKernel) : ∀ m1 m2 : AggState,
    m1.map sigProj = m2.map sigProj →
    perform_significance_tests K m1 = perform_significance_tests K m2 := by
  intro m1
  induction m1 with
  | nil =>
    intro m2 h
    rw [List.map_eq_nil_iff.mp h.symm]
  | cons x t ih =>
    intro m2 h
    cases m2 with
    | nil => simp at h
    | cons y t2 =>
      simp only [List.map_cons, List.cons.injEq] at h
      obtain ⟨hxy, ht⟩ := h
      unfold perform_significance_tests
      rw [ih t2 ht, sigFilter_congr K x y hxy t t2 ht]

theorem map_sigProj_eq : ∀ m1 m2 : AggState,
    m1.map Prod.fst = m2.map Prod.fst →
    (m1.map Prod.fst).Nodup →
    (∀ (k : String) (p1 p2 : ProverStats), alook m1 k = some p1 → alook m2 k = some p2 →
      p1.total_durations_ms.Perm p2.total_durations_ms) →
    m1.map sigProj = m2.map sigProj := by
  intro m1
  induction m1 with
  | nil =>
    intro m2 h _ _
    rw [List.map_eq_nil_iff.mp h.symm]
  | cons x t ih =>
    intro m2 h hnd hdata
    cases m2 with
    | nil => simp at h
    | cons y t2 =>
      obtain ⟨kx, px⟩ := x
      obtain ⟨ky, py⟩ := y
      simp only [List.map_cons, List.cons.injEq] at h
      obtain ⟨hk, ht⟩ := h
      subst hk
      simp only [List.map_cons, List.nodup_cons] at hnd
      obtain ⟨hnx, hndt⟩ := hnd
      have hhead : px.total_durations_ms.Perm py.total_durations_ms :=
        hdata kx px py (alook_cons_eq ..) (alook_cons_eq ..)
      have htail : t.map sigProj = t2.map sigProj := by
        apply ih t2 ht hndt
        intro k p1 p2 hp1 hp2
        have hkk : kx ≠ k := by
          intro he
          subst he
          exact hnx ((alook_isSome_iff_mem t kx).mp (by rw [hp1]; rfl))
        refine hdata k p1 p2 ?_ ?_
        · rw [alook_cons_ne t k kx px hkk]
          exact hp1
        · rw [alook_cons_ne t2 k kx py hkk]
          exact hp2
      simp only [List.map_cons, htail, List.cons.injEq]
      refine ⟨?_, trivial⟩
      unfold sigProj
      simp only [hhead.length_eq, nmean_perm _ _ hhead, svar_perm _ _ hhead]

/-- C3 (amended): the per-group computed statistics — the sorted per-group
half of the engine output — are invariant under every permutation of the
input lines, within and across files; the pairwise significance results are
invariant whenever the permutation also preserves the order in which group
keys first appear (their per-pair statistics are always invariant, but the
pair orientation, and hence the comparison labels and sign-carrying fields,
follow first-appearance order). -/
theorem c3_order_invariance_amended (K : NumKernel) (files1 files2 : List (List Line))
    (m1 m2 : AggState)
    (h1 : load_and_aggregate files1 = .ok m1) (h2 : load_and_aggregate files2 = .ok m2)
    (hp : files1.flatten.Perm files2.flatten) :
    summariesView K m1 = summariesView K m2 ∧
    (m1.map Prod.fst = m2.map Prod.fst →
      perform_significance_tests K m1 = perform_significance_tests K m2) := by
  refine ⟨summariesView_eq K files1 files2 m1 m2 h1 h2 hp, fun hkeys => ?_⟩
  apply sigPairs_congr
  apply map_sigProj_eq m1 m2 hkeys (load_ok_keys files1 m1 h1).1
  intro k p1 p2 hp1 hp2
  have G1 := load_groupShape files1 m1 k p1 h1 hp1
  have G2 := load_groupShape files2 m2 k p2 h2 hp2
  rw [G1.totals_eq, G2.totals_eq]
  exact (hp.filterMap _).filterMap extTot

/-- C3: the claim that the whole final output is invariant under every
permutation of the input lines is false: reordering the lines of a batch so
that another group appears first reverses the orientation of the pairwise
comparison, changing the emitted comparison label (and the signs of the
orientation-dependent statistics). -/
theorem c3_counterexample :
    ([Line.good (recDirect 1), Line.good (recZeta 2),
      Line.good (recDirect 1), Line.good (recZeta 2)].Perm
     [Line.good (recZeta 2), Line.good (recDirect 1),
      Line.good (recZeta 2), Line.good (recDirect 1)]) ∧
    engineOutput trivKernel
        [[Line.good (recDirect 1), Line.good (recZeta 2),
          Line.good (recDirect 1), Line.good (recZeta 2)]] ≠
      engineOutput trivKernel
        [[Line.good (recZeta 2), Line.good (recDirect 1),
          Line.good (recZeta 2), Line.good (recDirect 1)]] := by
  constructor
  · exact (List.Perm.swap (Line.good (recZeta 2)) (Line.good (recDirect 1))
      [Line.good (recDirect 1), Line.good (recZeta 2)]).trans
      (List.Perm.cons (Line.good (recZeta 2)) (List.Perm.cons (Line.good (recDirect 1))
        (List.Perm.swap (Line.good (recZeta 2)) (Line.good (recDirect 1)) [])))
  · intro h
    have h2 := congrArg sigComparisons h
    revert h2
    decide

/-- C3 witness: swapping two same-key lines permutes the batch, leaves the
per-group statistics identical, and (the key order being unchanged) leaves
the significance results identical as well. -/
theorem c3_witness :
    summariesView trivKernel
        [("Direct", ⟨"Direct", none, [1, 2], [], [], [], 2, 0⟩)] =
      summariesView trivKernel
        [("Direct", ⟨"Direct", none, [2, 1], [], [], [], 2, 0⟩)] ∧
    perform_significance_tests trivKernel
        [("Direct", ⟨"Direct", none, [1, 2], [], [], [], 2, 0⟩)] =
      perform_significance_tests trivKernel
        [("Direct", ⟨"Direct", none, [2, 1], [], [], [], 2, 0⟩)] := by
  have hperm : ([[Line.good (recDirect 1), Line.good (recDirect 2)]] :
      List (List Line)).flatten.Perm
      ([[Line.good (recDirect 2), Line.good (recDirect 1)]] :
      List (List Line)).flatten := by
    simp only [List.flatten]
    exact (List.Perm.swap (Line.good (recDirect 2)) (Line.good (recDirect 1)) []).trans
      (List.Perm.refl _)
  have H := c3_order_invariance_amended trivKernel
    [[Line.good (recDirect 1), Line.good (recDirect 2)]]
    [[Line.good (recDirect 2), Line.good (recDirect 1)]]
    [("Direct", ⟨"Direct", none, [1, 2], [], [], [], 2, 0⟩)]
    [("Direct", ⟨"Direct", none, [2, 1], [], [], [], 2, 0⟩)]
    rfl rfl hperm
  exact ⟨H.1, H.2 rfl⟩

end Bench
